import Mathlib

/-!
Shallow embedding of the archetype storage engine of `bevy_ecs/hecs`
(`src/crates/bevy_ecs/hecs/src/world.rs`).

`World` and its operations are translated from `world.rs`.  The collaborators
that `world.rs` calls but whose sources are not in the repository snapshot
(`Archetype` from `archetype.rs`, `Entities`/`Entity` from `entities.rs`, and
the `Bundle` tuple implementations from `lib.rs`/`macros.rs`) are modelled
from the specification, as indicated on each definition.

Machine-level details are abstracted as follows: a component type is named by
its stable type id (a `Nat`; the spec requires only that ids be totally
ordered and injective), a component value is a `Nat` (component bytes are
opaque to the engine: they are only memcpy'd around), and an uninitialised
cell is `none` (`Archetype::allocate` does not initialise component cells).
Rust panics that are reachable in the modelled fragment are represented by an
`Option` result (`none` = panic).
-/

namespace Hecs

abbrev TypeId := Nat
abbrev Val := Nat

/-- A dynamic bundle: the component values paired with their type ids, in
declaration order (the order in which `DynamicBundle::put` hands them out). -/
abbrev Bundle := List (TypeId × Val)

/-- First index of `x` in `l`, if any. -/
def idxOf (l : List TypeId) (x : TypeId) : Option Nat :=
  match l with
  | [] => none
  | y :: ys => if y = x then some 0 else (idxOf ys x).map (· + 1)

/-- Association-list lookup (model of `HashMap::get`). -/
def assocGet {α β : Type} [DecidableEq α] (l : List (α × β)) (k : α) : Option β :=
  match l with
  | [] => none
  | p :: ps => if p.1 = k then some p.2 else assocGet ps k

/-- Association-list insert (model of `HashMap::insert`): replaces the
binding of `k` if present, otherwise appends one. -/
def assocInsert {α β : Type} [DecidableEq α] (l : List (α × β)) (k : α) (v : β) :
    List (α × β) :=
  match l with
  | [] => [(k, v)]
  | p :: ps => if p.1 = k then (k, v) :: ps else p :: assocInsert ps k v

/-- Swap-remove: overwrite index `i` with the last element and drop the last
element (the row-removal discipline of `Archetype::remove`/`move_to`). -/
def swapRemove {α : Type} (l : List α) (i : Nat) : List α :=
  match l.getLast? with
  | none => l
  | some x => (l.set i x).dropLast

/-- `OptAll o p` holds when `p` holds of the content of `o`, if any. -/
def OptAll {α : Type} (o : Option α) (p : α → Prop) : Prop :=
  match o with
  | none => True
  | some x => p x

instance {α : Type} (o : Option α) (p : α → Prop) [DecidablePred p] :
    Decidable (OptAll o p) := by
  cases o with
  | none => exact isTrue trivial
  | some x => exact inferInstanceAs (Decidable (p x))

/-- Ascending sort on type ids (model of `Vec::sort` on `TypeId`/`TypeInfo`
vectors; the spec keys the archetype index by the ids in ascending order). -/
def sortTys (l : List TypeId) : List TypeId :=
  List.insertionSort (· ≤ ·) l

/- ### Entity directory, modelled from the spec -/

/-- Modelled from the spec (`entities.rs` is not in the snapshot): an entity
handle is a pair (id, generation); two handles are equal iff both match. -/
structure Entity where
  id : Nat
  generation : Nat
deriving DecidableEq, Repr, Inhabited

/-- A live entity's place: archetype index and row index (`Location` of
`entities.rs`, used by `world.rs`). -/
structure Location where
  archetype : Nat
  index : Nat
deriving DecidableEq, Repr, Inhabited

/-- Modelled from the spec: one directory slot — its current generation and,
when live, the entity's location. -/
structure EntitySlot where
  generation : Nat
  loc : Option Location
deriving DecidableEq, Repr, Inhabited

/-- Modelled from the spec (`entities.rs` is not in the snapshot): the entity
directory maps ids (slot indices) to locations and recycles freed ids,
bumping the slot generation so stale handles are rejected. -/
structure Entities where
  slots : List EntitySlot
  freelist : List Nat
deriving DecidableEq, Repr, Inhabited

namespace Entities

/-- Modelled from the spec: directory lookup; fails (`NoSuchEntity`,
here `none`) when the slot is dead or the generation differs. -/
def get (es : Entities) (e : Entity) : Option Location :=
  match es.slots[e.id]? with
  | some s => if s.generation = e.generation then s.loc else none
  | none => none

/-- Whether the handle is live (`Entities::contains`). -/
def contains (es : Entities) (e : Entity) : Bool :=
  (es.get e).isSome

/-- Modelled from the spec: free a live slot, bumping its generation and
returning the id to the freelist; yields the old location. -/
def free (es : Entities) (e : Entity) : Option (Location × Entities) :=
  match es.slots[e.id]? with
  | some s =>
    if s.generation = e.generation then
      match s.loc with
      | some l =>
        some (l, { slots := es.slots.set e.id ⟨s.generation + 1, none⟩,
                   freelist := e.id :: es.freelist })
      | none => none
    else none
  | none => none

/-- Modelled from the spec: mint a fresh handle — recycle a freed id at its
current (already bumped) generation, or extend the directory. -/
def alloc (es : Entities) : Entity × Entities :=
  match es.freelist with
  | i :: rest => (⟨i, (es.slots.getD i default).generation⟩, { es with freelist := rest })
  | [] => (⟨es.slots.length, 0⟩, { slots := es.slots ++ [⟨0, none⟩], freelist := [] })

/-- Modelled from the spec: record a (possibly brand-new) handle's location
(`Entities::insert`, used by `spawn_as_entity` and `SpawnBatchIter::next`). -/
def insert (es : Entities) (e : Entity) (l : Location) : Entities :=
  let slots :=
    if e.id < es.slots.length then es.slots
    else es.slots ++ List.replicate (e.id + 1 - es.slots.length) default
  { es with slots := slots.set e.id ⟨e.generation, some l⟩ }

/-- Modelled from the spec: overwrite a live entity's location (the
`loc.archetype = target; loc.index = target_index` writes through the
`get_mut` borrow in `World::insert`/`World::remove`). -/
def setLoc (es : Entities) (e : Entity) (l : Location) : Entities :=
  match es.slots[e.id]? with
  | some s => { es with slots := es.slots.set e.id ⟨s.generation, some l⟩ }
  | none => es

/-- Modelled from the spec: patch the row index of the entity occupying slot
`id` (the `entities.get_mut(Entity::from_id(moved)).unwrap().index = ...`
fix-up after a swap-remove). -/
def setIndex (es : Entities) (id : Nat) (idx : Nat) : Entities :=
  match es.slots[id]? with
  | some s =>
    { es with slots := es.slots.set id ⟨s.generation, s.loc.map fun l => ⟨l.archetype, idx⟩⟩ }
  | none => es

/-- Modelled from the spec: reset the directory (`World::clear`); every live
slot is freed with its generation bumped, and all ids become reusable. -/
def clear (es : Entities) : Entities :=
  { slots := es.slots.map fun s =>
      match s.loc with
      | some _ => ⟨s.generation + 1, none⟩
      | none => s,
    freelist := List.range es.slots.length }

end Entities

/- ### Archetype column store, modelled from the spec -/

/-- One row of an archetype: the entity id occupying the row, and — parallel
to the archetype's type vector — the component cells (`none` while
uninitialised) and the added / mutated tracking bits.  The source stores
these column-major; row-major is the same data. -/
structure Row where
  eid : Nat
  cells : List (Option Val)
  added : List Bool
  mutated : List Bool
deriving DecidableEq, Repr, Inhabited

/-- Modelled from the spec (`archetype.rs` is not in the snapshot): the
column store for one exact component set.  `types` is the sorted vector of
stable type ids defining the set. -/
structure Archetype where
  types : List TypeId
  rows : List Row
deriving DecidableEq, Repr, Inhabited

namespace Archetype

/-- `Archetype::new`: an empty store for the given (sorted) type vector. -/
def new (tys : List TypeId) : Archetype := ⟨tys, []⟩

/-- Number of live rows (`Archetype::len`). -/
def len (a : Archetype) : Nat := a.rows.length

/-- Modelled from the spec: reserve a row for `eid`; component cells are not
initialised.  Returns the new row index. -/
def allocate (a : Archetype) (eid : Nat) : Nat × Archetype :=
  (a.rows.length,
   { a with rows := a.rows ++
       [⟨eid, a.types.map fun _ => none, a.types.map fun _ => false,
         a.types.map fun _ => false⟩] })

/-- Write cell `i` of a row, setting the mutated bit and, when `markAdded`,
the added bit. -/
def Row.put (r : Row) (i : Nat) (cell : Option Val) (markAdded : Bool) : Row :=
  { r with cells := r.cells.set i cell,
           mutated := r.mutated.set i true,
           added := if markAdded then r.added.set i true else r.added }

/-- Modelled from the spec: move a component value into the column for `ty`
at `row`; sets the mutated bit, and the added bit when `markAdded`.  A `ty`
absent from the archetype or an out-of-range `row` is a caller error
(undefined behaviour in the source) and is modelled as a no-op. -/
def putDynamic (a : Archetype) (ty : TypeId) (cell : Option Val) (row : Nat)
    (markAdded : Bool) : Archetype :=
  match idxOf a.types ty with
  | none => a
  | some i =>
    match a.rows[row]? with
    | none => a
    | some r => { a with rows := a.rows.set row (Row.put r i cell markAdded) }

/-- Raw `ptr::copy_nonoverlapping` into a cell: writes the bytes without
touching the tracking bits (the migration loop of `World::remove`). -/
def copyCell (a : Archetype) (ty : TypeId) (cell : Option Val) (row : Nat) : Archetype :=
  match idxOf a.types ty with
  | none => a
  | some i =>
    match a.rows[row]? with
    | none => a
    | some r => { a with rows := a.rows.set row ({ r with cells := r.cells.set i cell }) }

/-- Overwrite the added and mutated bits for `ty` at `row` (the
`get_type_state_mut` writes in `World::insert`/`World::remove`). -/
def setBits (a : Archetype) (ty : TypeId) (row : Nat) (ad mu : Bool) : Archetype :=
  match idxOf a.types ty with
  | none => a
  | some i =>
    match a.rows[row]? with
    | none => a
    | some r =>
      let r' : Row := { r with added := r.added.set i ad, mutated := r.mutated.set i mu }
      { a with rows := a.rows.set row r' }

/-- Modelled from the spec: address of the cell for `ty` at `row`, or `none`
when the archetype lacks that type (the row is not bounds-checked in the
source).  The outer option is type presence; the inner option is the cell. -/
def getDynamic (a : Archetype) (ty : TypeId) (row : Nat) : Option (Option Val) :=
  (idxOf a.types ty).map fun i => ((a.rows.getD row default).cells.getD i none)

/-- Modelled from the spec: drop the components at `row` (a no-op on opaque
values), move the last row into `row`, and return the id of the moved entity
when a different row was moved in. -/
def removeRow (a : Archetype) (row : Nat) : Archetype × Option Nat :=
  let moved := if row + 1 < a.rows.length then (a.rows.getLast?).map Row.eid else none
  ({ a with rows := swapRemove a.rows row }, moved)

/-- The per-component data handed to the `move_to` callback for `row`:
(type id, cell, added bit, mutated bit), in the archetype's type order. -/
def emissions (a : Archetype) (row : Nat) : List (TypeId × Option Val × Bool × Bool) :=
  match a.rows[row]? with
  | none => []
  | some r =>
    (List.range a.types.length).map fun i =>
      (a.types.getD i 0, r.cells.getD i none, r.added.getD i false, r.mutated.getD i false)

/-- Modelled from the spec: hand every component of `row` to the caller and
then remove the row without dropping (ownership transferred); returns the
emitted data, the shrunk archetype and the moved-in entity id, if any. -/
def moveTo (a : Archetype) (row : Nat) :
    List (TypeId × Option Val × Bool × Bool) × Archetype × Option Nat :=
  (a.emissions row, a.removeRow row)

/-- Modelled from the spec: drop all rows, preserving the type vector
(capacity retention has no observable counterpart here). -/
def clear (a : Archetype) : Archetype := { a with rows := [] }

/-- Modelled from the spec: zero all added and mutated bits. -/
def clearTrackers (a : Archetype) : Archetype :=
  { a with rows := a.rows.map fun r =>
      { r with added := r.added.map fun _ => false,
               mutated := r.mutated.map fun _ => false } }

end Archetype

/- ### World (translated from `world.rs`) -/

/-- `ComponentError` (world.rs:641): errors that arise when accessing
components.  `MissingComponent` carries the offending type id (the source
records the type's name). -/
inductive ComponentError where
  | noSuchEntity
  | missingComponent (t : TypeId)
deriving DecidableEq, Repr

/-- The removed-components log: `HashMap<TypeId, Vec<Entity>>`. -/
abbrev RemovedMap := List (TypeId × List Entity)

/-- Append `e` to the removed log for `ty`
(`removed_components.entry(ty).or_insert_with(Vec::new).push(entity)`). -/
def pushRemoved (m : RemovedMap) (ty : TypeId) (e : Entity) : RemovedMap :=
  match m with
  | [] => [(ty, [e])]
  | (t, l) :: rest => if t = ty then (t, l ++ [e]) :: rest else (t, l) :: pushRemoved rest ty e

/-- Append several entities to the removed log for `ty` (the
`removed_entities.extend(...)` in `World::clear`). -/
def pushRemovedMany (m : RemovedMap) (ty : TypeId) (es : List Entity) : RemovedMap :=
  match m with
  | [] => [(ty, es)]
  | (t, l) :: rest =>
    if t = ty then (t, l ++ es) :: rest else (t, l) :: pushRemovedMany rest ty es

/-- `World` (world.rs:38): directory, archetype index, removed-components
log, archetype list and the archetype generation counter. -/
structure World where
  entities : Entities
  index : List (List TypeId × Nat)
  removed_components : RemovedMap
  archetypes : List Archetype
  archetype_generation : Nat
deriving DecidableEq, Repr, Inhabited

/-- `Bundle::get` (modelled from the spec's bundle protocol): read each
component of the static type list `R`, in declaration order, from the source
archetype; fails with the first type the archetype lacks. -/
def bundleGet (R : List TypeId) (a : Archetype) (row : Nat) :
    Except TypeId (List (Option Val)) :=
  match R with
  | [] => .ok []
  | ty :: rest =>
    match a.getDynamic ty row with
    | none => .error ty
    | some c => (bundleGet rest a row).map (c :: ·)

namespace World

/-- `World::new` (world.rs:49): archetype 0 always exists, representing
entities with no components. -/
def new : World :=
  { entities := ⟨[], []⟩
    index := [([], 0)]
    removed_components := []
    archetypes := [Archetype.new []]
    archetype_generation := 0 }

/-- The index lookup-or-create step shared by `spawn_as_entity`,
`reserve_inner`, `insert` and `remove` (world.rs:97, 181, 383, 475): find the
archetype for the sorted id vector `key`, or push a new archetype, record it
in the index and bump the generation counter. -/
def getOrCreateArchetype (w : World) (key : List TypeId) : Nat × World :=
  match assocGet w.index key with
  | some i => (i, w)
  | none =>
    let x := w.archetypes.length
    (x, { w with archetypes := w.archetypes ++ [Archetype.new key],
                 index := assocInsert w.index key x,
                 archetype_generation := w.archetype_generation + 1 })

/-- Allocate a row in archetype `aid` of `w` and move the bundle in, each
component with the added bit set (the shared body of `spawn_as_entity` and
`SpawnBatchIter::next`, world.rs:108–113 and 788–792). -/
def spawnIntoArchetype (w : World) (aid : Nat) (e : Entity) (b : Bundle) : World :=
  let arch := w.archetypes.getD aid default
  let idx := (arch.allocate e.id).1
  let arch1 := (arch.allocate e.id).2
  let arch2 := b.foldl (fun a p => a.putDynamic p.1 (some p.2) idx true) arch1
  { w with archetypes := w.archetypes.set aid arch2,
           entities := w.entities.insert e ⟨aid, idx⟩ }

/-- `World::spawn_as_entity` (world.rs:96): find or create the bundle's
archetype, allocate a row, move each component in with the added bit set,
then record the entity's location. -/
def spawn_as_entity (w : World) (e : Entity) (b : Bundle) : World :=
  let key := sortTys (b.map Prod.fst)
  let aid := (w.getOrCreateArchetype key).1
  let w1 := (w.getOrCreateArchetype key).2
  w1.spawnIntoArchetype aid e b

/-- `World::spawn` (world.rs:82): mint a fresh entity and spawn it. -/
def spawn (w : World) (b : Bundle) : Entity × World :=
  let e := (w.entities.alloc).1
  let es := (w.entities.alloc).2
  (e, World.spawn_as_entity { w with entities := es } e b)

/-- `World::despawn` (world.rs:157): free the directory slot, swap-remove the
row (fixing the moved entity's row), then log the entity under every type it
had.  `none` is the `NoSuchEntity` error. -/
def despawn (w : World) (e : Entity) : Option World :=
  match w.entities.free e with
  | none => none
  | some p =>
    let loc := p.1
    let es1 := p.2
    let arch := w.archetypes.getD loc.archetype default
    let arch1 := (arch.removeRow loc.index).1
    let moved := (arch.removeRow loc.index).2
    let es2 := match moved with
      | some mid => es1.setIndex mid loc.index
      | none => es1
    let rc := arch1.types.foldl (fun m ty => pushRemoved m ty e) w.removed_components
    some { w with entities := es2,
                  archetypes := w.archetypes.set loc.archetype arch1,
                  removed_components := rc }

/-- `World::reserve_inner` (world.rs:178) as called by `World::reserve`:
directory and column reservations have no observable effect here beyond the
possible archetype creation. -/
def reserve (w : World) (tys : List TypeId) : World :=
  (w.getOrCreateArchetype (sortTys tys)).2

/-- `World::clear` (world.rs:198): log every live entity under each of its
archetype's types, clear every archetype, then reset the directory.
`Entity::from_id` is modelled from the spec as the live handle of the id. -/
def clear (w : World) : World :=
  let entOf := fun (id : Nat) => Entity.mk id ((w.entities.slots.getD id default).generation)
  let rc := w.archetypes.foldl
    (fun m a => a.types.foldl (fun m ty => pushRemovedMany m ty (a.rows.map (entOf ·.eid))) m)
    w.removed_components
  { w with removed_components := rc,
           archetypes := w.archetypes.map Archetype.clear,
           entities := w.entities.clear }

/-- `World::contains` (world.rs:213). -/
def contains (w : World) (e : Entity) : Bool :=
  w.entities.contains e

/-- `World::get` (world.rs:288): look up the location; an entity in archetype
0 has no components; otherwise hand out the cell for `ty` (borrow guards
have no observable counterpart in this embedding). -/
def get (w : World) (e : Entity) (ty : TypeId) : Except ComponentError (Option Val) :=
  match w.entities.get e with
  | none => .error .noSuchEntity
  | some loc =>
    if loc.archetype = 0 then .error (.missingComponent ty)
    else
      match (w.archetypes.getD loc.archetype default).getDynamic ty loc.index with
      | some cell => .ok cell
      | none => .error (.missingComponent ty)

/-- `World::get_mut` (world.rs:299): same lookup as `get`; the unique borrow
has no observable counterpart in this embedding. -/
def getMut (w : World) (e : Entity) (ty : TypeId) : Except ComponentError (Option Val) :=
  match w.entities.get e with
  | none => .error .noSuchEntity
  | some loc =>
    if loc.archetype = 0 then .error (.missingComponent ty)
    else
      match (w.archetypes.getD loc.archetype default).getDynamic ty loc.index with
      | some cell => .ok cell
      | none => .error (.missingComponent ty)

/-- `World::entity` (world.rs:310), reduced to its fallible lookup: the
`EntityRef` itself only wraps the archetype row. -/
def entity (w : World) (e : Entity) : Option Location :=
  w.entities.get e

/-- `World::removed` (world.rs:338). -/
def removed (w : World) (ty : TypeId) : List Entity :=
  (assocGet w.removed_components ty).getD []

/-- `World::archetypes_generation` (world.rs:594). -/
def archetypesGeneration (w : World) : Nat :=
  w.archetype_generation

/-- `World::clear_trackers` (world.rs:604). -/
def clearTrackers (w : World) : World :=
  { w with archetypes := w.archetypes.map Archetype.clearTrackers,
           removed_components := [] }

/-- The same-archetype fast path of `World::insert` (world.rs:394–402):
overwrite the bundle's cells in place, without the added bit. -/
def insertFast (w1 : World) (loc : Location) (b : Bundle) : World :=
  let arch := w1.archetypes.getD loc.archetype default
  let arch1 := b.foldl (fun a p => a.putDynamic p.1 (some p.2) loc.index false) arch
  { w1 with archetypes := w1.archetypes.set loc.archetype arch1 }

/-- The migration path of `World::insert` (world.rs:404–428): allocate a
target row, update the directory, move the retained components across
preserving their bits, fix the swapped entity's row, then write the bundle
with the added bit. -/
def insertFinish (w1 : World) (e : Entity) (loc : Location) (target : Nat) (b : Bundle) :
    World :=
  let src := w1.archetypes.getD loc.archetype default
  let tgt := w1.archetypes.getD target default
  let tIdx := (tgt.allocate e.id).1
  let tgt1 := (tgt.allocate e.id).2
  let es1 := w1.entities.setLoc e ⟨target, tIdx⟩
  let ems := src.emissions loc.index
  let src1 := (src.removeRow loc.index).1
  let moved := (src.removeRow loc.index).2
  let tgt2 := ems.foldl
    (fun a em => (a.putDynamic em.1 em.2.1 tIdx false).setBits em.1 tIdx em.2.2.1 em.2.2.2)
    tgt1
  let es2 := match moved with
    | some mid => es1.setIndex mid loc.index
    | none => es1
  let tgt3 := b.foldl (fun a p => a.putDynamic p.1 (some p.2) tIdx true) tgt2
  { w1 with entities := es2,
            archetypes := (w1.archetypes.set loc.archetype src1).set target tgt3 }

/-- `World::insert` (world.rs:360): drop-in-place overlapping components and
assemble the target type set; on the same-archetype fast path overwrite the
cells without the added bit; otherwise migrate the row, preserving the
retained components' bits, then write the bundle with the added bit. -/
def insert (w : World) (e : Entity) (b : Bundle) : Option World :=
  match w.entities.get e with
  | none => none
  | some loc =>
    let arch := w.archetypes.getD loc.archetype default
    let newTys := (sortTys (b.map Prod.fst)).filter
      fun ty => (arch.getDynamic ty loc.index).isNone
    let info := sortTys (arch.types ++ newTys)
    let target := (w.getOrCreateArchetype info).1
    let w1 := (w.getOrCreateArchetype info).2
    if target = loc.archetype then some (w1.insertFast loc b)
    else some (w1.insertFinish e loc target b)

/-- The migration path of `World::remove` (world.rs:488–513): allocate a
target row, update the directory, then via `move_to` copy retained
components (with their bits) into the target and log the removed ones;
finally fix the swapped entity's row. -/
def removeFinish (w1 : World) (e : Entity) (loc : Location) (target : Nat) : World :=
  let src := w1.archetypes.getD loc.archetype default
  let tgt := w1.archetypes.getD target default
  let tIdx := (tgt.allocate e.id).1
  let tgt1 := (tgt.allocate e.id).2
  let es1 := w1.entities.setLoc e ⟨target, tIdx⟩
  let ems := src.emissions loc.index
  let src1 := (src.removeRow loc.index).1
  let moved := (src.removeRow loc.index).2
  let step := fun (acc : Archetype × RemovedMap)
      (em : TypeId × Option Val × Bool × Bool) =>
    if (acc.1.getDynamic em.1 tIdx).isSome then
      ((acc.1.copyCell em.1 em.2.1 tIdx).setBits em.1 tIdx em.2.2.1 em.2.2.2, acc.2)
    else
      (acc.1, pushRemoved acc.2 em.1 e)
  let tgt2 := (ems.foldl step (tgt1, w1.removed_components)).1
  let rc := (ems.foldl step (tgt1, w1.removed_components)).2
  let es2 := match moved with
    | some mid => es1.setIndex mid loc.index
    | none => es1
  { w1 with entities := es2,
            archetypes := (w1.archetypes.set loc.archetype src1).set target tgt2,
            removed_components := rc }

/-- `World::remove` (world.rs:462), for the static type list `R` in
declaration order: build the target set, looking up or creating its
archetype *before* the fallible component reads; read the removed values;
migrate the row, copying retained components and logging the removed types.
The outer `none` is the panic of the `index2` aliasing assertion
(world.rs:632), which fires exactly when the target archetype equals the
source (the empty `R`); its bounds assertions are modelled by total
indexing. -/
def remove (w : World) (e : Entity) (R : List TypeId) :
    Option (Except ComponentError (List (Option Val)) × World) :=
  match w.entities.get e with
  | none => some (.error .noSuchEntity, w)
  | some loc =>
    let src0 := w.archetypes.getD loc.archetype default
    let info := src0.types.filter fun ty => ¬ R.contains ty
    let target := (w.getOrCreateArchetype info).1
    let w1 := (w.getOrCreateArchetype info).2
    let src := w1.archetypes.getD loc.archetype default
    match bundleGet R src loc.index with
    | .error t => some (.error (.missingComponent t), w1)
    | .ok vals =>
      if loc.archetype = target then none
      else some (.ok vals, w1.removeFinish e loc target)

/-- `World::spawn_batch` up to the construction of the iterator
(world.rs:137): convert the size hint (`expect("iterator too large")` is the
panic, modelled as `none`), then reserve, creating the bundle type's
archetype if needed. -/
def spawnBatchStart (w : World) (tys : List TypeId) (lower : Nat) (upper : Option Nat) :
    Option (Nat × World) :=
  if upper.getD lower < 2 ^ 32 then some (w.getOrCreateArchetype (sortTys tys))
  else none

/-- `SpawnBatchIter::next` (world.rs:785): mint an entity, allocate a row in
the batch archetype, move the bundle in with the added bit, record the
location. -/
def spawnOneInto (aid : Nat) (w : World) (b : Bundle) : Entity × World :=
  let e := (w.entities.alloc).1
  let es := (w.entities.alloc).2
  (e, World.spawnIntoArchetype { w with entities := es } aid e b)

/-- Run `SpawnBatchIter::next` over a list of pending bundles, collecting the
spawned entities (`SpawnBatchIter::drop` is this with the output unused). -/
def batchConsume (aid : Nat) (w : World) (bs : List Bundle) : List Entity × World :=
  bs.foldl (fun acc b =>
    let r := World.spawnOneInto aid acc.2 b
    (acc.1 ++ [r.1], r.2)) ([], w)

/-- `World::spawn_batch` consumed to completion. -/
def spawnBatch (w : World) (tys : List TypeId) (lower : Nat) (upper : Option Nat)
    (bs : List Bundle) : Option (List Entity × World) :=
  (w.spawnBatchStart tys lower upper).map fun p => World.batchConsume p.1 p.2 bs

end World

/- ### Operation words, for claims quantifying over call sequences -/

/-- One public structural operation, as named by the spec's invariant
sections.  `remove`/`insert`/`despawn` failures leave the world as the
source leaves it. -/
inductive Op where
  | spawn (b : Bundle)
  | spawnAsEntity (e : Entity) (b : Bundle)
  | spawnBatch (tys : List TypeId) (lower : Nat) (upper : Option Nat) (bs : List Bundle)
  | insert (e : Entity) (b : Bundle)
  | remove (e : Entity) (R : List TypeId)
  | despawn (e : Entity)
  | clear
  | reserve (tys : List TypeId)
  | clearTrackers
deriving DecidableEq, Repr

/-- The world after one operation.  A call that errors leaves the world the
operation left it (for `remove`, the error path can still have created the
target archetype); a call that panics never returns a world and is modelled
as the unreachable identity. -/
def applyOp (w : World) (op : Op) : World :=
  match op with
  | .spawn b => (w.spawn b).2
  | .spawnAsEntity e b => w.spawn_as_entity e b
  | .spawnBatch tys lower upper bs =>
    match w.spawnBatch tys lower upper bs with
    | some r => r.2
    | none => w
  | .insert e b =>
    match w.insert e b with
    | some w' => w'
    | none => w
  | .remove e R =>
    match w.remove e R with
    | some r => r.2
    | none => w
  | .despawn e =>
    match w.despawn e with
    | some w' => w'
    | none => w
  | .clear => w.clear
  | .reserve tys => w.reserve tys
  | .clearTrackers => w.clearTrackers

/-- The world after a sequence of operations. -/
def applyOps (w : World) (ops : List Op) : World :=
  ops.foldl applyOp w

/- ### Lemmas about the helper functions -/

theorem idxOf_eq_none_iff {l : List TypeId} {x : TypeId} :
    idxOf l x = none ↔ x ∉ l := by
  induction l with
  | nil => simp [idxOf]
  | cons y ys ih =>
    simp only [idxOf, List.mem_cons]
    by_cases h : y = x
    · simp [h]
    · rw [if_neg h, Option.map_eq_none', ih]
      have hxy : x ≠ y := fun he => h he.symm
      tauto

theorem idxOf_isSome_iff {l : List TypeId} {x : TypeId} :
    (idxOf l x).isSome = true ↔ x ∈ l := by
  rw [Option.isSome_iff_ne_none]
  constructor
  · intro h
    by_contra hmem
    exact h (idxOf_eq_none_iff.mpr hmem)
  · intro h hnone
    exact (idxOf_eq_none_iff.mp hnone) h

theorem idxOf_spec {l : List TypeId} {x : TypeId} {i : Nat} (h : idxOf l x = some i) :
    i < l.length ∧ l[i]? = some x := by
  induction l generalizing i with
  | nil => simp [idxOf] at h
  | cons y ys ih =>
    by_cases hy : y = x
    · subst hy
      simp [idxOf] at h
      subst h
      simp
    · simp only [idxOf, if_neg hy] at h
      cases hi : idxOf ys x with
      | none => rw [hi] at h; simp at h
      | some j =>
        rw [hi] at h
        simp only [Option.map_some', Option.some.injEq] at h
        subst h
        obtain ⟨h1, h2⟩ := ih hi
        refine ⟨by rw [List.length_cons]; omega, by simpa using h2⟩

theorem idxOf_of_getElem {l : List TypeId} (hnd : l.Nodup) {i : Nat} {x : TypeId}
    (h : l[i]? = some x) : idxOf l x = some i := by
  induction l generalizing i with
  | nil => simp at h
  | cons y ys ih =>
    cases i with
    | zero =>
      simp at h
      subst h
      simp [idxOf]
    | succ j =>
      simp at h
      have hyx : y ≠ x := by
        intro he
        subst he
        exact (List.nodup_cons.mp hnd).1 (List.getElem?_mem h)
      rw [idxOf, if_neg hyx, ih (List.nodup_cons.mp hnd).2 h]
      rfl

theorem assocGet_assocInsert_self {α β : Type} [DecidableEq α]
    (l : List (α × β)) (k : α) (v : β) :
    assocGet (assocInsert l k v) k = some v := by
  induction l with
  | nil => simp [assocGet, assocInsert]
  | cons p ps ih =>
    by_cases h : p.1 = k
    · simp [assocInsert, assocGet, h]
    · simp [assocInsert, assocGet, h, ih]

theorem assocGet_assocInsert_ne {α β : Type} [DecidableEq α]
    (l : List (α × β)) (k k' : α) (v : β) (h : k ≠ k') :
    assocGet (assocInsert l k v) k' = assocGet l k' := by
  induction l with
  | nil => simp [assocGet, assocInsert, h]
  | cons p ps ih =>
    by_cases hp : p.1 = k
    · simp [assocInsert, assocGet, hp, h]
    · simp only [assocInsert, if_neg hp, assocGet]
      by_cases hp' : p.1 = k' <;> simp [hp', ih]

theorem assocGet_mem {α β : Type} [DecidableEq α] {l : List (α × β)} {k : α} {v : β}
    (h : assocGet l k = some v) : (k, v) ∈ l := by
  induction l with
  | nil => simp [assocGet] at h
  | cons p ps ih =>
    obtain ⟨pk, pv⟩ := p
    by_cases hp : pk = k
    · rw [assocGet, if_pos hp] at h
      simp at h
      subst hp
      subst h
      exact List.mem_cons_self _ _
    · rw [assocGet, if_neg hp] at h
      exact List.mem_cons_of_mem _ (ih h)

theorem length_swapRemove {α : Type} {l : List α} (h : l ≠ []) (i : Nat) :
    (swapRemove l i).length = l.length - 1 := by
  rw [swapRemove]
  cases hl : l.getLast? with
  | none => exact absurd (List.getLast?_eq_none_iff.mp hl) h
  | some x => simp [List.length_dropLast, List.length_set]

theorem getElem?_swapRemove_ne {α : Type} {l : List α} {i j : Nat}
    (hne : j ≠ i) (hj : j < l.length - 1) :
    (swapRemove l i)[j]? = l[j]? := by
  rw [swapRemove]
  cases hl : l.getLast? with
  | none => rfl
  | some x =>
    rw [List.getElem?_dropLast, List.length_set, if_pos hj,
      List.getElem?_set_ne (fun he => hne he.symm)]

theorem getElem?_swapRemove_self {α : Type} {l : List α} {i : Nat}
    (hi : i < l.length - 1) :
    (swapRemove l i)[i]? = l[l.length - 1]? := by
  rw [swapRemove]
  cases hl : l.getLast? with
  | none =>
    have : l = [] := List.getLast?_eq_none_iff.mp hl
    subst this
    simp at hi
  | some x =>
    rw [List.getElem?_dropLast, List.length_set, if_pos hi,
      List.getElem?_set_self (by omega), ← List.getLast?_eq_getElem?, hl]

/- ### Wellformedness invariants (spec §3) -/

/-- Invariants of one archetype: the type vector is strictly ascending
(canonical order, hence duplicate-free), every row's parallel vectors have
one entry per type, and every live cell is initialised. -/
def Archetype.WF (a : Archetype) : Prop :=
  a.types.Pairwise (· < ·) ∧
  ∀ r ∈ a.rows, r.cells.length = a.types.length ∧ r.added.length = a.types.length ∧
    r.mutated.length = a.types.length ∧ ∀ c ∈ r.cells, c.isSome = true

instance (a : Archetype) : Decidable a.WF := by
  unfold Archetype.WF
  infer_instance

/-- Invariants of the directory's id recycling: the freelist holds distinct
dead in-range ids. -/
def Entities.WF (es : Entities) : Prop :=
  es.freelist.Nodup ∧
  ∀ i ∈ es.freelist, i < es.slots.length ∧ (es.slots.getD i default).loc = none

instance (es : Entities) : Decidable es.WF := by
  unfold Entities.WF
  infer_instance

/-- The world invariants of spec §3: every archetype wellformed; the index
maps each archetype's type vector to it and nothing else; every live
directory entry addresses a real row holding that entity's id; every row's
entity id maps back to that row; and the freelist is wellformed. -/
def World.WF (w : World) : Prop :=
  (∀ a ∈ w.archetypes, a.WF) ∧
  (∀ i, i < w.archetypes.length →
     assocGet w.index (w.archetypes.getD i default).types = some i) ∧
  (∀ p ∈ w.index, p.2 < w.archetypes.length ∧
     (w.archetypes.getD p.2 default).types = p.1) ∧
  (∀ id, id < w.entities.slots.length →
     OptAll (w.entities.slots.getD id default).loc fun l =>
       l.archetype < w.archetypes.length ∧
       l.index < (w.archetypes.getD l.archetype default).rows.length ∧
       ((w.archetypes.getD l.archetype default).rows.getD l.index default).eid = id) ∧
  (∀ i, i < w.archetypes.length →
     ∀ r, r < (w.archetypes.getD i default).rows.length →
       ((w.archetypes.getD i default).rows.getD r default).eid < w.entities.slots.length ∧
       (w.entities.slots.getD
          ((w.archetypes.getD i default).rows.getD r default).eid default).loc =
         some ⟨i, r⟩) ∧
  w.entities.WF ∧
  w.archetypes ≠ [] ∧ (w.archetypes.getD 0 default).types = []

instance (w : World) : Decidable w.WF := by
  unfold World.WF
  infer_instance

/- ### Generation counter bookkeeping (towards C3) -/

theorem getOrCreate_genlen (w : World) (k : List TypeId) :
    ((w.getOrCreateArchetype k).2.archetype_generation = w.archetype_generation ∧
     (w.getOrCreateArchetype k).2.archetypes.length = w.archetypes.length) ∨
    ((w.getOrCreateArchetype k).2.archetype_generation = w.archetype_generation + 1 ∧
     (w.getOrCreateArchetype k).2.archetypes.length = w.archetypes.length + 1) := by
  unfold World.getOrCreateArchetype
  cases assocGet w.index k <;> simp

theorem spawnIntoArchetype_genlen (w : World) (aid : Nat) (e : Entity) (b : Bundle) :
    (w.spawnIntoArchetype aid e b).archetype_generation = w.archetype_generation ∧
    (w.spawnIntoArchetype aid e b).archetypes.length = w.archetypes.length := by
  unfold World.spawnIntoArchetype
  simp

theorem spawn_as_entity_genlen (w : World) (e : Entity) (b : Bundle) :
    ((w.spawn_as_entity e b).archetype_generation = w.archetype_generation ∧
     (w.spawn_as_entity e b).archetypes.length = w.archetypes.length) ∨
    ((w.spawn_as_entity e b).archetype_generation = w.archetype_generation + 1 ∧
     (w.spawn_as_entity e b).archetypes.length = w.archetypes.length + 1) := by
  have h := getOrCreate_genlen w (sortTys (b.map Prod.fst))
  have h2 := spawnIntoArchetype_genlen (w.getOrCreateArchetype (sortTys (b.map Prod.fst))).2
    (w.getOrCreateArchetype (sortTys (b.map Prod.fst))).1 e b
  unfold World.spawn_as_entity
  rcases h with ⟨ha, hb⟩ | ⟨ha, hb⟩
  · exact Or.inl ⟨h2.1.trans ha, h2.2.trans hb⟩
  · exact Or.inr ⟨h2.1.trans ha, h2.2.trans hb⟩

theorem spawnOneInto_genlen (aid : Nat) (w : World) (b : Bundle) :
    (World.spawnOneInto aid w b).2.archetype_generation = w.archetype_generation ∧
    (World.spawnOneInto aid w b).2.archetypes.length = w.archetypes.length := by
  unfold World.spawnOneInto
  exact spawnIntoArchetype_genlen _ aid _ b

theorem batchConsume_genlen (aid : Nat) (bs : List Bundle) :
    ∀ (w : World) (acc : List Entity),
    (bs.foldl (fun acc b =>
        let r := World.spawnOneInto aid acc.2 b
        (acc.1 ++ [r.1], r.2)) (acc, w)).2.archetype_generation = w.archetype_generation ∧
    (bs.foldl (fun acc b =>
        let r := World.spawnOneInto aid acc.2 b
        (acc.1 ++ [r.1], r.2)) (acc, w)).2.archetypes.length = w.archetypes.length := by
  induction bs with
  | nil => intro w acc; exact ⟨rfl, rfl⟩
  | cons b bs ih =>
    intro w acc
    have h1 := spawnOneInto_genlen aid w b
    have h2 := ih (World.spawnOneInto aid w b).2 (acc ++ [(World.spawnOneInto aid w b).1])
    simp only [List.foldl_cons]
    exact ⟨h2.1.trans h1.1, h2.2.trans h1.2⟩

theorem insertFast_genlen (w1 : World) (loc : Location) (b : Bundle) :
    (w1.insertFast loc b).archetype_generation = w1.archetype_generation ∧
    (w1.insertFast loc b).archetypes.length = w1.archetypes.length := by
  unfold World.insertFast
  simp

theorem insertFinish_genlen (w1 : World) (e : Entity) (loc : Location) (target : Nat)
    (b : Bundle) :
    (w1.insertFinish e loc target b).archetype_generation = w1.archetype_generation ∧
    (w1.insertFinish e loc target b).archetypes.length = w1.archetypes.length := by
  unfold World.insertFinish
  simp

theorem removeFinish_genlen (w1 : World) (e : Entity) (loc : Location) (target : Nat) :
    (w1.removeFinish e loc target).archetype_generation = w1.archetype_generation ∧
    (w1.removeFinish e loc target).archetypes.length = w1.archetypes.length := by
  unfold World.removeFinish
  simp

theorem applyOp_genlen (w : World) (op : Op) :
    ((applyOp w op).archetype_generation = w.archetype_generation ∧
     (applyOp w op).archetypes.length = w.archetypes.length) ∨
    ((applyOp w op).archetype_generation = w.archetype_generation + 1 ∧
     (applyOp w op).archetypes.length = w.archetypes.length + 1) := by
  cases op with
  | spawn b =>
    have h := spawn_as_entity_genlen { w with entities := (w.entities.alloc).2 } (w.entities.alloc).1 b
    simpa [applyOp, World.spawn] using h
  | spawnAsEntity e b =>
    simpa [applyOp] using spawn_as_entity_genlen w e b
  | spawnBatch tys lower upper bs =>
    simp only [applyOp, World.spawnBatch, World.spawnBatchStart]
    by_cases h : upper.getD lower < 2 ^ 32
    · rw [if_pos h]
      have hs := getOrCreate_genlen w (sortTys tys)
      have hb := batchConsume_genlen (w.getOrCreateArchetype (sortTys tys)).1 bs
        (w.getOrCreateArchetype (sortTys tys)).2 []
      simp only [Option.map_some', World.batchConsume] at *
      rcases hs with ⟨h1, h2⟩ | ⟨h1, h2⟩
      · exact Or.inl ⟨hb.1.trans h1, hb.2.trans h2⟩
      · exact Or.inr ⟨hb.1.trans h1, hb.2.trans h2⟩
    · rw [if_neg h]
      exact Or.inl ⟨rfl, rfl⟩
  | insert e b =>
    cases hin : w.insert e b with
    | none => simp [applyOp, hin]
    | some w' =>
      simp only [applyOp, hin]
      unfold World.insert at hin
      cases hget : w.entities.get e with
      | none => rw [hget] at hin; simp at hin
      | some loc =>
        rw [hget] at hin
        simp only at hin
        split at hin
        all_goals
          injection hin with hin
          subst hin
        · rcases getOrCreate_genlen w (sortTys ((w.archetypes.getD loc.archetype default).types ++
              List.filter (fun ty =>
                ((w.archetypes.getD loc.archetype default).getDynamic ty loc.index).isNone)
                (sortTys (b.map Prod.fst)))) with ⟨h1, h2⟩ | ⟨h1, h2⟩
          · exact Or.inl ⟨(insertFast_genlen _ loc b).1.trans h1,
              (insertFast_genlen _ loc b).2.trans h2⟩
          · exact Or.inr ⟨(insertFast_genlen _ loc b).1.trans h1,
              (insertFast_genlen _ loc b).2.trans h2⟩
        · rcases getOrCreate_genlen w (sortTys ((w.archetypes.getD loc.archetype default).types ++
              List.filter (fun ty =>
                ((w.archetypes.getD loc.archetype default).getDynamic ty loc.index).isNone)
                (sortTys (b.map Prod.fst)))) with ⟨h1, h2⟩ | ⟨h1, h2⟩
          · exact Or.inl ⟨(insertFinish_genlen _ e loc _ b).1.trans h1,
              (insertFinish_genlen _ e loc _ b).2.trans h2⟩
          · exact Or.inr ⟨(insertFinish_genlen _ e loc _ b).1.trans h1,
              (insertFinish_genlen _ e loc _ b).2.trans h2⟩
  | remove e R =>
    cases hrm : w.remove e R with
    | none => simp [applyOp, hrm]
    | some p =>
      simp only [applyOp, hrm]
      unfold World.remove at hrm
      cases hget : w.entities.get e with
      | none =>
        rw [hget] at hrm
        injection hrm with hrm
        subst hrm
        exact Or.inl ⟨rfl, rfl⟩
      | some loc =>
        rw [hget] at hrm
        simp only at hrm
        split at hrm
        · injection hrm with hrm
          subst hrm
          rcases getOrCreate_genlen w (List.filter (fun ty => ¬ R.contains ty)
              (w.archetypes.getD loc.archetype default).types) with ⟨h1, h2⟩ | ⟨h1, h2⟩
          · exact Or.inl ⟨h1, h2⟩
          · exact Or.inr ⟨h1, h2⟩
        · split at hrm
          · exact absurd hrm (by simp)
          · injection hrm with hrm
            subst hrm
            rcases getOrCreate_genlen w (List.filter (fun ty => ¬ R.contains ty)
                (w.archetypes.getD loc.archetype default).types) with ⟨h1, h2⟩ | ⟨h1, h2⟩
            · exact Or.inl ⟨(removeFinish_genlen _ e loc _).1.trans h1,
                (removeFinish_genlen _ e loc _).2.trans h2⟩
            · exact Or.inr ⟨(removeFinish_genlen _ e loc _).1.trans h1,
                (removeFinish_genlen _ e loc _).2.trans h2⟩
  | despawn e =>
    simp only [applyOp, World.despawn]
    cases hf : w.entities.free e with
    | none => exact Or.inl ⟨rfl, rfl⟩
    | some p => exact Or.inl ⟨rfl, by simp⟩
  | clear => exact Or.inl ⟨rfl, by simp [applyOp, World.clear]⟩
  | reserve tys =>
    have h := getOrCreate_genlen w (sortTys tys)
    simpa [applyOp, World.reserve] using h
  | clearTrackers => exact Or.inl ⟨rfl, by simp [applyOp, World.clearTrackers]⟩

theorem applyOps_gen_le (w : World) (ops : List Op) :
    w.archetype_generation ≤ (applyOps w ops).archetype_generation := by
  induction ops generalizing w with
  | nil => exact Nat.le_refl _
  | cons op ops ih =>
    have h := applyOp_genlen w op
    have h2 := ih (applyOp w op)
    have : w.archetype_generation ≤ (applyOp w op).archetype_generation := by
      rcases h with ⟨h1, _⟩ | ⟨h1, _⟩ <;> omega
    exact le_trans this h2

/- ### Claim C3 -/

/-- **C3.** `archetypes_generation()` never decreases across any sequence of
public operations (spawn, spawn_as_entity, spawn_batch, insert, remove,
despawn, clear, reserve, clear_trackers), and it strictly increases whenever
an operation creates a new archetype (observed as growth of the archetype
list). -/
theorem archetypes_generation_monotone (w : World) (ops : List Op) (w' : World) (op : Op)
    (hcreate : w'.archetypes.length < (applyOp w' op).archetypes.length) :
    w.archetypesGeneration ≤ (applyOps w ops).archetypesGeneration ∧
    w'.archetypesGeneration < (applyOp w' op).archetypesGeneration := by
  simp only [World.archetypesGeneration]
  refine ⟨applyOps_gen_le w ops, ?_⟩
  rcases applyOp_genlen w' op with ⟨h1, h2⟩ | ⟨h1, h2⟩ <;> omega

theorem archetypes_generation_monotone_witness :
    World.new.archetypes.length < (applyOp World.new (.spawn [(1, 5)])).archetypes.length ∧
    (World.new.archetypesGeneration ≤
        (applyOps World.new [.spawn [(1, 5)], .despawn ⟨0, 0⟩]).archetypesGeneration ∧
      World.new.archetypesGeneration < (applyOp World.new (.spawn [(1, 5)])).archetypesGeneration) :=
  ⟨by decide,
   archetypes_generation_monotone World.new [.spawn [(1, 5)], .despawn ⟨0, 0⟩]
     World.new (.spawn [(1, 5)]) (by decide)⟩

/- ### Claim C10 -/

/-- **C10.** `spawn_batch` panics ("iterator too large") exactly when the
iterator's size hint — the upper bound, or the lower bound when no upper
bound exists — exceeds `2^32 - 1`; the panic happens before any entity is
spawned (the world is unchanged), and within the range the conversion never
panics. -/
theorem spawn_batch_size_limit (w : World) (tys : List TypeId) (lower : Nat)
    (upper : Option Nat) (bs : List Bundle) :
    (w.spawnBatch tys lower upper bs = none ↔ 2 ^ 32 - 1 < upper.getD lower) ∧
    (2 ^ 32 - 1 < upper.getD lower → applyOp w (.spawnBatch tys lower upper bs) = w) := by
  constructor
  · unfold World.spawnBatch World.spawnBatchStart
    by_cases h : upper.getD lower < 2 ^ 32
    · rw [if_pos h]
      exact iff_of_false (by simp) (by omega)
    · rw [if_neg h]
      exact iff_of_true (by simp) (by omega)
  · intro h
    simp only [applyOp, World.spawnBatch, World.spawnBatchStart]
    rw [if_neg (by omega : ¬ upper.getD lower < 2 ^ 32)]
    rfl

theorem spawn_batch_size_limit_witness :
    2 ^ 32 - 1 < (some (2 ^ 32) : Option Nat).getD 0 ∧
    applyOp World.new (.spawnBatch [1] 0 (some (2 ^ 32)) []) = World.new :=
  ⟨by decide,
   (spawn_batch_size_limit World.new [1] 0 (some (2 ^ 32)) []).2 (by decide)⟩

/- ### Claim C9 -/

instance exceptDecEq {ε α : Type} [DecidableEq ε] [DecidableEq α] :
    DecidableEq (Except ε α) := fun a b =>
  match a, b with
  | .ok x, .ok y => decidable_of_iff (x = y) (by simp)
  | .error x, .error y => decidable_of_iff (x = y) (by simp)
  | .ok _, .error _ => isFalse (by simp)
  | .error _, .ok _ => isFalse (by simp)

/-- A world with a single entity holding components of types 0 and 1. -/
def exW : World := (World.new.spawn [(0, 5), (1, 6)]).2

/-- The handle of `exW`'s single entity. -/
def exE : Entity := (World.new.spawn [(0, 5), (1, 6)]).1

/-- The world left behind by the failing `remove::<(1, 2)>` call on `exW`. -/
def exW2 : World :=
  match World.remove exW exE [1, 2] with
  | some p => p.2
  | none => World.new

/-- **C9.** `remove`'s error path is not free of structural side effects: on
`exW`, removing the type set `[1, 2]` (type 2 is absent from the entity)
returns `MissingComponent` and yet has already created a new empty target
archetype — the archetype count and the generation counter both grew —
while the entity's location and component values are unchanged. -/
theorem remove_error_creates_archetype :
    World.remove exW exE [1, 2] = some (.error (.missingComponent 2), exW2) ∧
    exW2.archetypes.length = exW.archetypes.length + 1 ∧
    exW.archetypesGeneration < exW2.archetypesGeneration ∧
    exW2.entities.get exE = exW.entities.get exE ∧
    (exW2.archetypes.getD 1 default) = (exW.archetypes.getD 1 default) ∧
    World.get exW2 exE 0 = .ok (some 5) ∧ World.get exW exE 0 = .ok (some 5) ∧
    World.get exW2 exE 1 = .ok (some 6) ∧ World.get exW exE 1 = .ok (some 6) := by
  decide

/- ### Removed-components log lemmas (towards C5) -/

/-- Membership in the removed log for `ty`. -/
def inLog (m : RemovedMap) (ty : TypeId) (e : Entity) : Prop :=
  e ∈ (assocGet m ty).getD []

theorem pushRemoved_eq_many (m : RemovedMap) (ty : TypeId) (e : Entity) :
    pushRemoved m ty e = pushRemovedMany m ty [e] := by
  induction m with
  | nil => rfl
  | cons p rest ih =>
    obtain ⟨t, l⟩ := p
    by_cases h : t = ty <;> simp [pushRemoved, pushRemovedMany, h, ih]

theorem inLog_pushRemovedMany_mono {m : RemovedMap} {ty : TypeId} {e : Entity}
    (ty' : TypeId) (es : List Entity) (h : inLog m ty e) :
    inLog (pushRemovedMany m ty' es) ty e := by
  induction m with
  | nil => simp [inLog, assocGet] at h
  | cons p rest ih =>
    obtain ⟨t, l⟩ := p
    by_cases ht : t = ty'
    · subst ht
      by_cases hty : t = ty
      · subst hty
        simp [inLog, pushRemovedMany, assocGet] at h ⊢
        exact Or.inl h
      · simp only [inLog, pushRemovedMany, if_pos rfl, assocGet, if_neg hty] at h ⊢
        exact h
    · by_cases hty : t = ty
      · subst hty
        simp only [inLog, pushRemovedMany, if_neg ht, assocGet, if_pos rfl] at h ⊢
        exact h
      · simp only [inLog, pushRemovedMany, if_neg ht, assocGet, if_neg hty] at h ⊢
        exact ih h

theorem inLog_pushRemoved_mono {m : RemovedMap} {ty : TypeId} {e : Entity}
    (ty' : TypeId) (e' : Entity) (h : inLog m ty e) :
    inLog (pushRemoved m ty' e') ty e := by
  rw [pushRemoved_eq_many]
  exact inLog_pushRemovedMany_mono ty' [e'] h

theorem inLog_pushRemoved_self (m : RemovedMap) (ty : TypeId) (e : Entity) :
    inLog (pushRemoved m ty e) ty e := by
  induction m with
  | nil => simp [inLog, pushRemoved, assocGet]
  | cons p rest ih =>
    obtain ⟨t, l⟩ := p
    by_cases ht : t = ty
    · subst ht
      simp [inLog, pushRemoved, assocGet]
    · simp only [inLog, pushRemoved, if_neg ht, assocGet, if_neg ht] at ih ⊢
      exact ih

theorem inLog_foldl_pushRemoved_mono {tys : List TypeId} {e' : Entity} :
    ∀ {m : RemovedMap} {ty : TypeId} {e : Entity}, inLog m ty e →
    inLog (tys.foldl (fun m t => pushRemoved m t e') m) ty e := by
  induction tys with
  | nil => intro m ty e h; exact h
  | cons t ts ih =>
    intro m ty e h
    exact ih (inLog_pushRemoved_mono t e' h)

theorem inLog_foldl_pushRemoved_self {tys : List TypeId} {ty : TypeId} (e : Entity)
    (hty : ty ∈ tys) :
    ∀ m : RemovedMap, inLog (tys.foldl (fun m t => pushRemoved m t e) m) ty e := by
  induction tys with
  | nil => simp at hty
  | cons t ts ih =>
    intro m
    rcases List.mem_cons.mp hty with h | h
    · subst h
      rw [List.foldl_cons]
      exact inLog_foldl_pushRemoved_mono (inLog_pushRemoved_self m ty e)
    · rw [List.foldl_cons]
      exact ih h _

theorem inLog_foldl_pushRemovedMany_mono {α : Type} (f : α → TypeId) (g : α → List Entity)
    (xs : List α) :
    ∀ {m : RemovedMap} {ty : TypeId} {e : Entity}, inLog m ty e →
    inLog (xs.foldl (fun m x => pushRemovedMany m (f x) (g x)) m) ty e := by
  induction xs with
  | nil => intro m ty e h; exact h
  | cons x xs ih =>
    intro m ty e h
    exact ih (inLog_pushRemovedMany_mono (f x) (g x) h)

theorem inLog_clear_fold_mono (g : Archetype → List Entity) (xs : List Archetype) :
    ∀ {m : RemovedMap} {ty : TypeId} {e : Entity}, inLog m ty e →
    inLog (xs.foldl
      (fun m a => a.types.foldl (fun m ty' => pushRemovedMany m ty' (g a)) m) m) ty e := by
  induction xs with
  | nil => intro m ty e h; exact h
  | cons a xs ih =>
    intro m ty e h
    rw [List.foldl_cons]
    exact ih (inLog_foldl_pushRemovedMany_mono id (fun _ => g a) a.types h)

theorem mem_removed_iff_inLog (w : World) (ty : TypeId) (e : Entity) :
    e ∈ w.removed ty ↔ inLog w.removed_components ty e := Iff.rfl

theorem removed_components_getOrCreate (w : World) (k : List TypeId) :
    ((w.getOrCreateArchetype k).2).removed_components = w.removed_components := by
  unfold World.getOrCreateArchetype
  cases assocGet w.index k <;> rfl

theorem removed_components_spawnIntoArchetype (w : World) (aid : Nat) (e : Entity)
    (b : Bundle) :
    (w.spawnIntoArchetype aid e b).removed_components = w.removed_components := rfl

theorem removed_components_spawn_as_entity (w : World) (e : Entity) (b : Bundle) :
    (w.spawn_as_entity e b).removed_components = w.removed_components := by
  unfold World.spawn_as_entity
  rw [removed_components_spawnIntoArchetype, removed_components_getOrCreate]

theorem removed_components_batchConsume (aid : Nat) (bs : List Bundle) :
    ∀ (w : World) (acc : List Entity),
    (bs.foldl (fun acc b =>
        let r := World.spawnOneInto aid acc.2 b
        (acc.1 ++ [r.1], r.2)) (acc, w)).2.removed_components = w.removed_components := by
  induction bs with
  | nil => intro w acc; rfl
  | cons b bs ih =>
    intro w acc
    rw [List.foldl_cons]
    exact ih _ _

theorem removed_components_insertFast (w1 : World) (loc : Location) (b : Bundle) :
    (w1.insertFast loc b).removed_components = w1.removed_components := rfl

theorem removed_components_insertFinish (w1 : World) (e : Entity) (loc : Location)
    (target : Nat) (b : Bundle) :
    (w1.insertFinish e loc target b).removed_components = w1.removed_components := rfl

theorem inLog_removeStep_fold_mono (e' : Entity) (tIdx : Nat)
    (ems : List (TypeId × Option Val × Bool × Bool)) :
    ∀ (acc : Archetype × RemovedMap) {ty : TypeId} {e : Entity}, inLog acc.2 ty e →
    inLog (ems.foldl (fun acc em =>
      if (acc.1.getDynamic em.1 tIdx).isSome then
        ((acc.1.copyCell em.1 em.2.1 tIdx).setBits em.1 tIdx em.2.2.1 em.2.2.2, acc.2)
      else
        (acc.1, pushRemoved acc.2 em.1 e')) acc).2 ty e := by
  induction ems with
  | nil => intro acc ty e h; exact h
  | cons em ems ih =>
    intro acc ty e h
    rw [List.foldl_cons]
    by_cases hc : ((acc.1.getDynamic em.1 tIdx).isSome : Prop)
    · rw [if_pos hc]
      exact ih _ h
    · rw [if_neg hc]
      exact ih _ (inLog_pushRemoved_mono em.1 e' h)

theorem inLog_removeFinish_mono (w1 : World) (e' : Entity) (loc : Location) (target : Nat)
    {ty : TypeId} {e : Entity} (h : inLog w1.removed_components ty e) :
    inLog (w1.removeFinish e' loc target).removed_components ty e := by
  unfold World.removeFinish
  exact inLog_removeStep_fold_mono e' _ _ _ h

/-- The removed-components log can only grow under any operation other than
`clear_trackers`. -/
theorem inLog_applyOp_mono (w : World) (op : Op) (hop : op ≠ Op.clearTrackers)
    {ty : TypeId} {e : Entity} (h : e ∈ w.removed ty) : e ∈ (applyOp w op).removed ty := by
  rw [mem_removed_iff_inLog] at h ⊢
  cases op with
  | spawn b =>
    have heq : (applyOp w (.spawn b)).removed_components = w.removed_components := by
      simp only [applyOp, World.spawn]
      exact removed_components_spawn_as_entity _ _ b
    rw [heq]; exact h
  | spawnAsEntity e' b =>
    have heq : (applyOp w (.spawnAsEntity e' b)).removed_components = w.removed_components :=
      removed_components_spawn_as_entity w e' b
    rw [heq]; exact h
  | spawnBatch tys lower upper bs =>
    simp only [applyOp, World.spawnBatch, World.spawnBatchStart]
    by_cases hcap : upper.getD lower < 2 ^ 32
    · rw [if_pos hcap]
      simp only [Option.map_some', World.batchConsume]
      rw [removed_components_batchConsume, removed_components_getOrCreate]
      exact h
    · rw [if_neg hcap]
      exact h
  | insert e' b =>
    cases hin : w.insert e' b with
    | none => simpa [applyOp, hin] using h
    | some w' =>
      simp only [applyOp, hin]
      unfold World.insert at hin
      cases hget : w.entities.get e' with
      | none => rw [hget] at hin; simp at hin
      | some loc =>
        rw [hget] at hin
        simp only at hin
        split at hin
        all_goals
          injection hin with hin
          subst hin
        · rw [removed_components_insertFast, removed_components_getOrCreate]
          exact h
        · rw [removed_components_insertFinish, removed_components_getOrCreate]
          exact h
  | remove e' R =>
    cases hrm : w.remove e' R with
    | none => simpa [applyOp, hrm] using h
    | some p =>
      simp only [applyOp, hrm]
      unfold World.remove at hrm
      cases hget : w.entities.get e' with
      | none =>
        rw [hget] at hrm
        injection hrm with hrm
        subst hrm
        exact h
      | some loc =>
        rw [hget] at hrm
        simp only at hrm
        split at hrm
        · injection hrm with hrm
          subst hrm
          rw [removed_components_getOrCreate]
          exact h
        · split at hrm
          · exact absurd hrm (by simp)
          · injection hrm with hrm
            subst hrm
            refine inLog_removeFinish_mono _ e' loc _ ?_
            rw [removed_components_getOrCreate]
            exact h
  | despawn e' =>
    cases hd : w.despawn e' with
    | none => simpa [applyOp, hd] using h
    | some w' =>
      simp only [applyOp, hd]
      unfold World.despawn at hd
      cases hf : w.entities.free e' with
      | none => rw [hf] at hd; simp at hd
      | some p =>
        rw [hf] at hd
        simp only at hd
        injection hd with hd
        subst hd
        exact inLog_foldl_pushRemoved_mono h
  | clear =>
    simp only [applyOp, World.clear]
    exact inLog_clear_fold_mono _ _ h
  | reserve tys =>
    simp only [applyOp, World.reserve]
    rw [removed_components_getOrCreate]
    exact h
  | clearTrackers => exact absurd rfl hop

theorem mem_removed_applyOps_mono {ty : TypeId} {e : Entity} (ops : List Op) :
    ∀ (w : World), (∀ op ∈ ops, op ≠ Op.clearTrackers) → e ∈ w.removed ty →
    e ∈ (applyOps w ops).removed ty := by
  induction ops with
  | nil => intro w _ h; exact h
  | cons op ops ih =>
    intro w hops h
    have h1 := inLog_applyOp_mono w op (hops op (List.mem_cons_self op ops)) h
    exact ih (applyOp w op) (fun op' hm => hops op' (List.mem_cons_of_mem _ hm)) h1

theorem Entities.free_get {es : Entities} {e : Entity} {p : Location × Entities}
    (h : es.free e = some p) : es.get e = some p.1 := by
  unfold Entities.free at h
  unfold Entities.get
  cases hs : es.slots[e.id]? with
  | none => rw [hs] at h; simp at h
  | some s =>
    rw [hs] at h
    dsimp only at h ⊢
    by_cases hg : s.generation = e.generation
    · rw [if_pos hg] at h
      rw [if_pos hg]
      cases hl : s.loc with
      | none => rw [hl] at h; simp at h
      | some l =>
        rw [hl] at h
        injection h with h
        rw [← h]
    · rw [if_neg hg] at h; simp at h

/- ### Claim C5 -/

/-- **C5.** After a successful `despawn(E)` where `E` possessed component
type `T`, `removed<T>()` contains `E`; it continues to contain `E` under any
further operations that are not `clear_trackers`; and once `clear_trackers`
runs the slice no longer contains `E` (it is empty). -/
theorem removed_log_after_despawn (w : World) (e : Entity) (loc : Location) (ty : TypeId)
    (w' : World) (ops : List Op)
    (hloc : w.entities.get e = some loc)
    (hty : ty ∈ (w.archetypes.getD loc.archetype default).types)
    (hd : w.despawn e = some w')
    (hops : ∀ op ∈ ops, op ≠ Op.clearTrackers) :
    e ∈ w'.removed ty ∧
    e ∈ (applyOps w' ops).removed ty ∧
    (applyOps w' (ops ++ [Op.clearTrackers])).removed ty = [] := by
  have hmem : e ∈ w'.removed ty := by
    unfold World.despawn at hd
    cases hf : w.entities.free e with
    | none => rw [hf] at hd; simp at hd
    | some p =>
      rw [hf] at hd
      simp only at hd
      injection hd with hd
      subst hd
      have hp1 : p.1 = loc := by
        have hfree := Entities.free_get hf
        rw [hloc] at hfree
        injection hfree with hv
        exact hv.symm
      rw [mem_removed_iff_inLog]
      refine inLog_foldl_pushRemoved_self e ?_ _
      rw [hp1]
      exact hty
  refine ⟨hmem, mem_removed_applyOps_mono ops w' hops hmem, ?_⟩
  rw [applyOps, List.foldl_append]
  rfl

/-- A world with one entity holding components of types 1 and 2. -/
def dW : World := (World.new.spawn [(1, 10), (2, 20)]).2

/-- The handle of `dW`'s entity. -/
def dE : Entity := (World.new.spawn [(1, 10), (2, 20)]).1

/-- `dW` after despawning its entity. -/
def dW' : World := (dW.despawn dE).getD World.new

theorem removed_log_after_despawn_witness :
    dE ∈ dW'.removed 1 ∧
    dE ∈ (applyOps dW' [Op.spawn [(3, 7)]]).removed 1 ∧
    (applyOps dW' ([Op.spawn [(3, 7)]] ++ [Op.clearTrackers])).removed 1 = [] :=
  removed_log_after_despawn dW dE ⟨1, 0⟩ 1 dW' [Op.spawn [(3, 7)]]
    (by decide) (by decide) (by decide) (by decide)

/- ### Entity-generation bookkeeping (towards C6) -/

/-- The current generation of directory slot `i`. -/
def Entities.genAt (es : Entities) (i : Nat) : Nat :=
  (es.slots.getD i default).generation

/-- The handle `e` is permanently stale: its slot exists and has moved past
`e`'s generation. -/
def deadFor (es : Entities) (e : Entity) : Prop :=
  e.id < es.slots.length ∧ e.generation < es.genAt e.id

instance (es : Entities) (e : Entity) : Decidable (deadFor es e) := by
  unfold deadFor
  infer_instance

/-- Whether `op` is a `spawn_as_entity` naming slot `i` (the collision the
spec leaves undefined). -/
def Op.usesSpawnAsId : Op → Nat → Bool
  | .spawnAsEntity e _, i => e.id == i
  | _, _ => false

theorem Entities.genAt_alloc (es : Entities) (i : Nat) :
    (es.alloc).2.genAt i = es.genAt i := by
  unfold Entities.alloc Entities.genAt
  cases es.freelist with
  | cons j rest => rfl
  | nil =>
    dsimp only
    rw [List.getD_eq_getElem?_getD, List.getD_eq_getElem?_getD, List.getElem?_append]
    by_cases h : i < es.slots.length
    · rw [if_pos h]
    · rw [if_neg h]
      have hr : es.slots[i]? = none := List.getElem?_eq_none (by omega)
      rw [hr]
      cases hj : (([⟨0, none⟩] : List EntitySlot))[i - es.slots.length]? with
      | none => rfl
      | some s =>
        rw [List.mem_singleton.mp (List.getElem?_mem hj)]
        rfl

theorem Entities.len_alloc_ge (es : Entities) :
    es.slots.length ≤ (es.alloc).2.slots.length := by
  unfold Entities.alloc
  cases es.freelist with
  | cons j rest => exact Nat.le_refl _
  | nil => simp

theorem Entities.genAt_insert_ne (es : Entities) (e' : Entity) (l : Location) (i : Nat)
    (h : i ≠ e'.id) : (es.insert e' l).genAt i = es.genAt i := by
  unfold Entities.insert Entities.genAt
  dsimp only
  rw [List.getD_eq_getElem?_getD, List.getD_eq_getElem?_getD,
    List.getElem?_set_ne (fun he => h he.symm)]
  by_cases hlt : e'.id < es.slots.length
  · rw [if_pos hlt]
  · rw [if_neg hlt, List.getElem?_append]
    by_cases hi : i < es.slots.length
    · rw [if_pos hi]
    · rw [if_neg hi]
      have hr : es.slots[i]? = none := List.getElem?_eq_none (by omega)
      rw [hr]
      cases hj : (List.replicate (e'.id + 1 - es.slots.length) (default : EntitySlot))[i - es.slots.length]? with
      | none => rfl
      | some s =>
        rw [List.eq_of_mem_replicate (List.getElem?_mem hj)]
        rfl

theorem Entities.len_insert_ge (es : Entities) (e' : Entity) (l : Location) :
    es.slots.length ≤ (es.insert e' l).slots.length := by
  unfold Entities.insert
  dsimp only
  rw [List.length_set]
  by_cases hlt : e'.id < es.slots.length
  · rw [if_pos hlt]
  · rw [if_neg hlt]
    simp

theorem Entities.genAt_spawnAlloc (es : Entities) (l : Location) (i : Nat) :
    (((es.alloc).2).insert (es.alloc).1 l).genAt i = es.genAt i := by
  by_cases h : i = (es.alloc).1.id
  · subst h
    unfold Entities.alloc Entities.insert Entities.genAt
    cases hf : es.freelist with
    | cons j rest =>
      dsimp only
      by_cases hlt : j < es.slots.length
      · rw [if_pos hlt]
        rw [List.getD_eq_getElem?_getD, List.getElem?_set_self hlt]
        rfl
      · rw [if_neg hlt]
        rw [List.getD_eq_getElem?_getD,
          List.getElem?_set_self (by simp [List.length_replicate]; omega),
          List.getD_eq_getElem?_getD, List.getElem?_eq_none (by omega)]
        rfl
    | nil =>
      dsimp only
      rw [if_pos (by simp)]
      rw [List.getD_eq_getElem?_getD,
        List.getElem?_set_self (by simp),
        List.getD_eq_getElem?_getD, List.getElem?_eq_none (by omega)]
      rfl
  · rw [Entities.genAt_insert_ne _ _ _ _ h, Entities.genAt_alloc]

theorem Entities.genAt_setLoc (es : Entities) (e' : Entity) (l : Location) (i : Nat) :
    (es.setLoc e' l).genAt i = es.genAt i := by
  unfold Entities.setLoc Entities.genAt
  cases hs : es.slots[e'.id]? with
  | none => rfl
  | some s =>
    dsimp only
    by_cases h : i = e'.id
    · subst h
      rw [List.getD_eq_getElem?_getD,
        List.getElem?_set_self (List.getElem?_eq_some_iff.mp hs).1,
        List.getD_eq_getElem?_getD, hs]
      rfl
    · rw [List.getD_eq_getElem?_getD, List.getElem?_set_ne (fun he => h he.symm),
        List.getD_eq_getElem?_getD]

theorem Entities.genAt_setIndex (es : Entities) (id' : Nat) (idx : Nat) (i : Nat) :
    (es.setIndex id' idx).genAt i = es.genAt i := by
  unfold Entities.setIndex Entities.genAt
  cases hs : es.slots[id']? with
  | none => rfl
  | some s =>
    dsimp only
    by_cases h : i = id'
    · subst h
      rw [List.getD_eq_getElem?_getD,
        List.getElem?_set_self (List.getElem?_eq_some_iff.mp hs).1,
        List.getD_eq_getElem?_getD, hs]
      rfl
    · rw [List.getD_eq_getElem?_getD, List.getElem?_set_ne (fun he => h he.symm),
        List.getD_eq_getElem?_getD]

theorem Entities.len_setLoc (es : Entities) (e' : Entity) (l : Location) :
    (es.setLoc e' l).slots.length = es.slots.length := by
  unfold Entities.setLoc
  cases es.slots[e'.id]? <;> simp

theorem Entities.len_setIndex (es : Entities) (id' : Nat) (idx : Nat) :
    (es.setIndex id' idx).slots.length = es.slots.length := by
  unfold Entities.setIndex
  cases es.slots[id']? <;> simp

theorem Entities.genAt_free_ge {es : Entities} {e' : Entity} {p : Location × Entities}
    (h : es.free e' = some p) (i : Nat) : es.genAt i ≤ p.2.genAt i := by
  unfold Entities.free at h
  cases hs : es.slots[e'.id]? with
  | none => rw [hs] at h; simp at h
  | some s =>
    rw [hs] at h
    dsimp only at h
    by_cases hg : s.generation = e'.generation
    · rw [if_pos hg] at h
      cases hl : s.loc with
      | none => rw [hl] at h; simp at h
      | some l =>
        rw [hl] at h
        injection h with h
        subst h
        unfold Entities.genAt
        dsimp only
        by_cases hi : i = e'.id
        · subst hi
          rw [List.getD_eq_getElem?_getD, List.getD_eq_getElem?_getD,
            List.getElem?_set_self (List.getElem?_eq_some_iff.mp hs).1, hs]
          simp
        · rw [List.getD_eq_getElem?_getD, List.getD_eq_getElem?_getD,
            List.getElem?_set_ne (fun he => hi he.symm)]
    · rw [if_neg hg] at h; simp at h

theorem Entities.len_free {es : Entities} {e' : Entity} {p : Location × Entities}
    (h : es.free e' = some p) : p.2.slots.length = es.slots.length := by
  unfold Entities.free at h
  cases hs : es.slots[e'.id]? with
  | none => rw [hs] at h; simp at h
  | some s =>
    rw [hs] at h
    dsimp only at h
    by_cases hg : s.generation = e'.generation
    · rw [if_pos hg] at h
      cases hl : s.loc with
      | none => rw [hl] at h; simp at h
      | some l =>
        rw [hl] at h
        injection h with h
        subst h
        simp
    · rw [if_neg hg] at h; simp at h

theorem Entities.genAt_clear_ge (es : Entities) (i : Nat) :
    es.genAt i ≤ es.clear.genAt i := by
  unfold Entities.clear Entities.genAt
  dsimp only
  rw [List.getD_eq_getElem?_getD, List.getD_eq_getElem?_getD, List.getElem?_map]
  cases hs : es.slots[i]? with
  | none => simp
  | some s =>
    simp only [Option.map_some', Option.getD_some]
    cases s.loc <;> simp

theorem Entities.len_clear (es : Entities) : es.clear.slots.length = es.slots.length := by
  unfold Entities.clear
  simp

theorem deadFor_mono {es es' : Entities} {e : Entity}
    (hlen : es.slots.length ≤ es'.slots.length)
    (hgen : es.genAt e.id ≤ es'.genAt e.id)
    (h : deadFor es e) : deadFor es' e :=
  ⟨lt_of_lt_of_le h.1 hlen, lt_of_lt_of_le h.2 hgen⟩

theorem entities_getOrCreate (w : World) (k : List TypeId) :
    ((w.getOrCreateArchetype k).2).entities = w.entities := by
  unfold World.getOrCreateArchetype
  cases assocGet w.index k <;> rfl

theorem entities_spawn_as_entity (w : World) (e' : Entity) (b : Bundle) :
    ∃ l, (w.spawn_as_entity e' b).entities = w.entities.insert e' l := by
  unfold World.spawn_as_entity World.spawnIntoArchetype
  dsimp only
  rw [entities_getOrCreate]
  exact ⟨_, rfl⟩

theorem deadFor_insert_alloc {es : Entities} {e : Entity} (l : Location)
    (h : deadFor es e) : deadFor (((es.alloc).2).insert (es.alloc).1 l) e := by
  refine deadFor_mono ?_ ?_ h
  · exact le_trans (Entities.len_alloc_ge es) (Entities.len_insert_ge _ _ l)
  · rw [Entities.genAt_spawnAlloc]

theorem deadFor_spawn (w : World) (b : Bundle) {e : Entity}
    (h : deadFor w.entities e) : deadFor ((w.spawn b).2).entities e := by
  unfold World.spawn
  dsimp only
  obtain ⟨l, hl⟩ := entities_spawn_as_entity { w with entities := (w.entities.alloc).2 }
    (w.entities.alloc).1 b
  rw [hl]
  exact deadFor_insert_alloc l h

theorem deadFor_spawnOneInto (aid : Nat) (w : World) (b : Bundle) {e : Entity}
    (h : deadFor w.entities e) : deadFor ((World.spawnOneInto aid w b).2).entities e := by
  unfold World.spawnOneInto World.spawnIntoArchetype
  dsimp only
  exact deadFor_insert_alloc _ h

theorem deadFor_batchConsume (aid : Nat) (bs : List Bundle) {e : Entity} :
    ∀ (w : World) (acc : List Entity), deadFor w.entities e →
    deadFor ((bs.foldl (fun acc b =>
        let r := World.spawnOneInto aid acc.2 b
        (acc.1 ++ [r.1], r.2)) (acc, w)).2).entities e := by
  induction bs with
  | nil => intro w acc h; exact h
  | cons b bs ih =>
    intro w acc h
    rw [List.foldl_cons]
    exact ih _ _ (deadFor_spawnOneInto aid w b h)

theorem deadFor_setLoc {es : Entities} {e : Entity} (e' : Entity) (l : Location)
    (h : deadFor es e) : deadFor (es.setLoc e' l) e :=
  deadFor_mono (le_of_eq (Entities.len_setLoc es e' l).symm)
    (le_of_eq (Entities.genAt_setLoc es e' l e.id).symm) h

theorem deadFor_setIndex {es : Entities} {e : Entity} (id' idx : Nat)
    (h : deadFor es e) : deadFor (es.setIndex id' idx) e :=
  deadFor_mono (le_of_eq (Entities.len_setIndex es id' idx).symm)
    (le_of_eq (Entities.genAt_setIndex es id' idx e.id).symm) h

theorem deadFor_optSetIndex {es : Entities} {e : Entity} (moved : Option Nat) (idx : Nat)
    (h : deadFor es e) :
    deadFor (match moved with
             | some mid => es.setIndex mid idx
             | none => es) e := by
  cases moved with
  | some mid => exact deadFor_setIndex mid idx h
  | none => exact h

/-- No public operation that avoids `spawn_as_entity` on `e.id` can bring a
stale handle `e` back to life: its slot's generation never returns to
`e.generation`. -/
theorem deadFor_applyOp (w : World) (op : Op) (e : Entity)
    (hop : Op.usesSpawnAsId op e.id = false)
    (h : deadFor w.entities e) : deadFor (applyOp w op).entities e := by
  cases op with
  | spawn b => exact deadFor_spawn w b h
  | spawnAsEntity e' b =>
    obtain ⟨l, hl⟩ := entities_spawn_as_entity w e' b
    show deadFor (w.spawn_as_entity e' b).entities e
    rw [hl]
    have hne : e.id ≠ e'.id := by
      intro he
      rw [Op.usesSpawnAsId, he] at hop
      simp at hop
    refine deadFor_mono (Entities.len_insert_ge _ _ l)
      (le_of_eq (Entities.genAt_insert_ne _ _ l e.id hne).symm) h
  | spawnBatch tys lower upper bs =>
    simp only [applyOp, World.spawnBatch, World.spawnBatchStart]
    by_cases hcap : upper.getD lower < 2 ^ 32
    · rw [if_pos hcap]
      simp only [Option.map_some', World.batchConsume]
      refine deadFor_batchConsume _ bs _ [] ?_
      rw [entities_getOrCreate]
      exact h
    · rw [if_neg hcap]
      exact h
  | insert e' b =>
    cases hin : w.insert e' b with
    | none => simpa [applyOp, hin] using h
    | some w' =>
      simp only [applyOp, hin]
      unfold World.insert at hin
      cases hget : w.entities.get e' with
      | none => rw [hget] at hin; simp at hin
      | some loc =>
        rw [hget] at hin
        simp only at hin
        split at hin
        all_goals
          injection hin with hin
          subst hin
        · show deadFor (World.insertFast _ loc b).entities e
          unfold World.insertFast
          dsimp only
          rw [entities_getOrCreate]
          exact h
        · show deadFor (World.insertFinish _ e' loc _ b).entities e
          unfold World.insertFinish
          dsimp only
          rw [entities_getOrCreate]
          exact deadFor_optSetIndex _ _ (deadFor_setLoc e' _ h)
  | remove e' R =>
    cases hrm : w.remove e' R with
    | none => simpa [applyOp, hrm] using h
    | some p =>
      simp only [applyOp, hrm]
      unfold World.remove at hrm
      cases hget : w.entities.get e' with
      | none =>
        rw [hget] at hrm
        injection hrm with hrm
        subst hrm
        exact h
      | some loc =>
        rw [hget] at hrm
        simp only at hrm
        split at hrm
        · injection hrm with hrm
          subst hrm
          dsimp only
          rw [entities_getOrCreate]
          exact h
        · split at hrm
          · exact absurd hrm (by simp)
          · injection hrm with hrm
            subst hrm
            show deadFor (World.removeFinish _ e' loc _).entities e
            unfold World.removeFinish
            dsimp only
            rw [entities_getOrCreate]
            exact deadFor_optSetIndex _ _ (deadFor_setLoc e' _ h)
  | despawn e' =>
    cases hd : w.despawn e' with
    | none => simpa [applyOp, hd] using h
    | some w' =>
      simp only [applyOp, hd]
      unfold World.despawn at hd
      cases hf : w.entities.free e' with
      | none => rw [hf] at hd; simp at hd
      | some p =>
        rw [hf] at hd
        simp only at hd
        injection hd with hd
        subst hd
        refine deadFor_optSetIndex _ _ ?_
        refine deadFor_mono (le_of_eq (Entities.len_free hf).symm)
          (Entities.genAt_free_ge hf e.id) h
  | clear =>
    simp only [applyOp, World.clear]
    refine deadFor_mono (le_of_eq (Entities.len_clear w.entities).symm)
      (Entities.genAt_clear_ge w.entities e.id) h
  | reserve tys =>
    simp only [applyOp, World.reserve]
    rw [entities_getOrCreate]
    exact h
  | clearTrackers => exact h

theorem deadFor_applyOps (ops : List Op) (e : Entity) :
    ∀ (w : World), (∀ op ∈ ops, Op.usesSpawnAsId op e.id = false) →
    deadFor w.entities e → deadFor (applyOps w ops).entities e := by
  induction ops with
  | nil => intro w _ h; exact h
  | cons op ops ih =>
    intro w hops h
    exact ih (applyOp w op) (fun op' hm => hops op' (List.mem_cons_of_mem _ hm))
      (deadFor_applyOp w op e (hops op (List.mem_cons_self op ops)) h)

theorem Entities.get_of_deadFor {es : Entities} {e : Entity} (h : deadFor es e) :
    es.get e = none := by
  obtain ⟨hlt, hgen⟩ := h
  unfold Entities.get
  cases hs : es.slots[e.id]? with
  | none => rfl
  | some s =>
    dsimp only
    rw [if_neg]
    intro hg
    rw [Entities.genAt, List.getD_eq_getElem?_getD, hs] at hgen
    simp only [Option.getD_some] at hgen
    omega

theorem Entities.free_of_deadFor {es : Entities} {e : Entity} (h : deadFor es e) :
    es.free e = none := by
  obtain ⟨hlt, hgen⟩ := h
  unfold Entities.free
  cases hs : es.slots[e.id]? with
  | none => rfl
  | some s =>
    dsimp only
    rw [if_neg]
    intro hg
    rw [Entities.genAt, List.getD_eq_getElem?_getD, hs] at hgen
    simp only [Option.getD_some] at hgen
    omega

theorem despawn_deadFor {w : World} {e : Entity} {w' : World}
    (hd : w.despawn e = some w') : deadFor w'.entities e := by
  unfold World.despawn at hd
  cases hf : w.entities.free e with
  | none => rw [hf] at hd; simp at hd
  | some p =>
    rw [hf] at hd
    simp only at hd
    injection hd with hd
    subst hd
    refine deadFor_optSetIndex _ _ ?_
    unfold Entities.free at hf
    cases hs : w.entities.slots[e.id]? with
    | none => rw [hs] at hf; simp at hf
    | some s =>
      rw [hs] at hf
      dsimp only at hf
      by_cases hg : s.generation = e.generation
      · rw [if_pos hg] at hf
        cases hl : s.loc with
        | none => rw [hl] at hf; simp at hf
        | some l =>
          rw [hl] at hf
          injection hf with hf
          subst hf
          constructor
          · dsimp only
            rw [List.length_set]
            exact (List.getElem?_eq_some_iff.mp hs).1
          · show e.generation < Entities.genAt _ e.id
            unfold Entities.genAt
            dsimp only
            rw [List.getD_eq_getElem?_getD,
              List.getElem?_set_self (List.getElem?_eq_some_iff.mp hs).1]
            simp
            omega
      · rw [if_neg hg] at hf; simp at hf

/- ### Claim C6 -/

/-- **C6.** After `despawn(E)` succeeds, every subsequent operation taking
the old handle `E` — `get`, `get_mut`, `insert`, `remove`, `despawn`,
`entity` — fails with `NoSuchEntity` and `contains(E)` is false, across any
further operation sequence (excluding only `spawn_as_entity` aimed at `E`'s
slot, whose id collision the spec leaves undefined); a spawn that reuses
`E`'s id necessarily does so at a different generation, so the old handle
stays dead. -/
theorem despawned_entity_stays_dead (w : World) (e : Entity) (w' : World) (ops : List Op)
    (hd : w.despawn e = some w')
    (hops : ∀ op ∈ ops, Op.usesSpawnAsId op e.id = false) :
    (applyOps w' ops).contains e = false ∧
    (∀ ty, (applyOps w' ops).get e ty = .error .noSuchEntity) ∧
    (∀ ty, (applyOps w' ops).getMut e ty = .error .noSuchEntity) ∧
    (∀ b, (applyOps w' ops).insert e b = none) ∧
    (∀ R, (applyOps w' ops).remove e R = some (.error .noSuchEntity, applyOps w' ops)) ∧
    (applyOps w' ops).despawn e = none ∧
    (applyOps w' ops).entity e = none := by
  have hdead : deadFor (applyOps w' ops).entities e :=
    deadFor_applyOps ops e w' hops (despawn_deadFor hd)
  have hget : (applyOps w' ops).entities.get e = none := Entities.get_of_deadFor hdead
  refine ⟨?_, ?_, ?_, ?_, ?_, ?_, ?_⟩
  · unfold World.contains Entities.contains
    rw [hget]
    rfl
  · intro ty
    unfold World.get
    rw [hget]
  · intro ty
    unfold World.getMut
    rw [hget]
  · intro b
    unfold World.insert
    rw [hget]
  · intro R
    unfold World.remove
    rw [hget]
  · unfold World.despawn
    rw [Entities.free_of_deadFor hdead]
  · unfold World.entity
    exact hget

theorem despawned_entity_stays_dead_witness :
    (applyOps dW' [Op.spawn [(1, 1)]]).contains dE = false ∧
    (applyOps dW' [Op.spawn [(1, 1)]]).get dE 1 = .error .noSuchEntity ∧
    (applyOps dW' [Op.spawn [(1, 1)]]).getMut dE 1 = .error .noSuchEntity ∧
    (applyOps dW' [Op.spawn [(1, 1)]]).insert dE [(1, 9)] = none ∧
    (applyOps dW' [Op.spawn [(1, 1)]]).remove dE [1] =
      some (.error .noSuchEntity, applyOps dW' [Op.spawn [(1, 1)]]) ∧
    (applyOps dW' [Op.spawn [(1, 1)]]).despawn dE = none ∧
    (applyOps dW' [Op.spawn [(1, 1)]]).entity dE = none :=
  have h := despawned_entity_stays_dead dW dE dW' [Op.spawn [(1, 1)]] (by decide) (by decide)
  ⟨h.1, h.2.1 1, h.2.2.1 1, h.2.2.2.1 [(1, 9)], h.2.2.2.2.1 [1],
    h.2.2.2.2.2.1, h.2.2.2.2.2.2⟩

/- ### Spawn bookkeeping (towards C7 and C8) -/

theorem Entities.get_insert_self (es : Entities) (e : Entity) (l : Location) :
    (es.insert e l).get e = some l := by
  unfold Entities.insert Entities.get
  dsimp only
  have hlen : e.id <
      (if e.id < es.slots.length then es.slots
       else es.slots ++ List.replicate (e.id + 1 - es.slots.length) default).length := by
    by_cases h : e.id < es.slots.length
    · rw [if_pos h]; exact h
    · rw [if_neg h]; simp; omega
  rw [List.getElem?_set_self hlen]
  simp

theorem Entities.alloc_id_ne_live (es : Entities) {f : Entity} {lf : Location}
    (hWF : es.WF) (hf : es.get f = some lf) : (es.alloc).1.id ≠ f.id := by
  have hslot : es.slots[f.id]? ≠ none := by
    intro hn
    unfold Entities.get at hf
    rw [hn] at hf
    simp at hf
  have hfid : f.id < es.slots.length := by
    by_contra hge
    exact hslot (List.getElem?_eq_none (by omega))
  unfold Entities.alloc
  cases hfl : es.freelist with
  | nil =>
    dsimp only
    omega
  | cons j rest =>
    dsimp only
    intro he
    subst he
    have hdead := (hWF.2 f.id (by rw [hfl]; exact List.mem_cons_self _ _)).2
    unfold Entities.get at hf
    cases hs : es.slots[f.id]? with
    | none => rw [hs] at hf; simp at hf
    | some s =>
      rw [hs] at hf
      dsimp only at hf
      rw [List.getD_eq_getElem?_getD, hs] at hdead
      simp only [Option.getD_some] at hdead
      by_cases hg : s.generation = f.generation
      · rw [if_pos hg, hdead] at hf
        simp at hf
      · rw [if_neg hg] at hf
        simp at hf

theorem Entities.get_insert_ne (es : Entities) (e' : Entity) (l : Location) {f : Entity}
    {lf : Location} (hne : e'.id ≠ f.id) (hfid : f.id < es.slots.length)
    (hf : es.get f = some lf) : (es.insert e' l).get f = some lf := by
  unfold Entities.insert Entities.get at *
  dsimp only
  rw [List.getElem?_set_ne hne]
  by_cases h : e'.id < es.slots.length
  · rw [if_pos h]
    exact hf
  · rw [if_neg h, List.getElem?_append, if_pos hfid]
    exact hf

theorem Entities.len_le_alloc_get {es : Entities} {f : Entity} {lf : Location}
    (hf : es.get f = some lf) : f.id < es.slots.length := by
  unfold Entities.get at hf
  cases hs : es.slots[f.id]? with
  | none => rw [hs] at hf; simp at hf
  | some s => exact (List.getElem?_eq_some_iff.mp hs).1

theorem Entities.get_alloc (es : Entities) {f : Entity} {lf : Location}
    (hf : es.get f = some lf) : (es.alloc).2.get f = some lf := by
  unfold Entities.alloc
  cases hfl : es.freelist with
  | cons j rest => exact hf
  | nil =>
    dsimp only
    unfold Entities.get at hf ⊢
    rw [List.getElem?_append, if_pos (Entities.len_le_alloc_get hf)]
    exact hf

theorem Entities.get_insert_alloc_ne (es : Entities) (l : Location) {f : Entity}
    {lf : Location} (hWF : es.WF) (hf : es.get f = some lf) :
    (((es.alloc).2).insert (es.alloc).1 l).get f = some lf := by
  have hne := Entities.alloc_id_ne_live es hWF hf
  have hf2 := Entities.get_alloc es hf
  exact Entities.get_insert_ne _ _ l hne (Entities.len_le_alloc_get hf2) hf2

theorem Entities.WF_alloc (es : Entities) (hWF : es.WF) : ((es.alloc).2).WF := by
  unfold Entities.alloc
  cases hfl : es.freelist with
  | cons j rest =>
    dsimp only
    constructor
    · have := hWF.1
      rw [hfl] at this
      exact (List.nodup_cons.mp this).2
    · intro i hi
      exact hWF.2 i (by rw [hfl]; exact List.mem_cons_of_mem _ hi)
  | nil =>
    exact ⟨List.nodup_nil, by intro i hi; simp at hi⟩

theorem Entities.WF_insert_alloc (es : Entities) (l : Location) (hWF : es.WF) :
    (((es.alloc).2).insert (es.alloc).1 l).WF := by
  have hWF1 := Entities.WF_alloc es hWF
  set a := (es.alloc).1 with ha
  set es1 := (es.alloc).2 with hes1
  have hnotin : a.id ∉ es1.freelist := by
    rw [ha, hes1]
    unfold Entities.alloc
    cases hfl : es.freelist with
    | cons j rest =>
      dsimp only
      have := hWF.1
      rw [hfl] at this
      exact (List.nodup_cons.mp this).1
    | nil => simp
  constructor
  · exact hWF1.1
  · intro i hi
    have hb := hWF1.2 i hi
    have hne : i ≠ a.id := fun he => hnotin (he ▸ hi)
    constructor
    · exact lt_of_lt_of_le hb.1 (Entities.len_insert_ge es1 a l)
    · unfold Entities.insert
      dsimp only
      rw [List.getD_eq_getElem?_getD, List.getElem?_set_ne (fun he => hne he.symm)]
      by_cases h : a.id < es1.slots.length
      · rw [if_pos h, ← List.getD_eq_getElem?_getD]
        exact hb.2
      · rw [if_neg h, List.getElem?_append, if_pos hb.1, ← List.getD_eq_getElem?_getD]
        exact hb.2

theorem getOrCreate_found {w : World} {k : List TypeId} {i : Nat}
    (h : assocGet w.index k = some i) : (w.getOrCreateArchetype k).1 = i := by
  unfold World.getOrCreateArchetype
  rw [h]

theorem getOrCreate_lookup (w : World) (k : List TypeId) :
    assocGet ((w.getOrCreateArchetype k).2).index k = some (w.getOrCreateArchetype k).1 := by
  unfold World.getOrCreateArchetype
  cases h : assocGet w.index k with
  | some i => exact h
  | none =>
    dsimp only
    exact assocGet_assocInsert_self _ _ _

theorem getOrCreate_entities_swap (w : World) (es : Entities) (k : List TypeId) :
    ({ w with entities := es }.getOrCreateArchetype k).1 = (w.getOrCreateArchetype k).1 ∧
    ({ w with entities := es }.getOrCreateArchetype k).2 =
      { (w.getOrCreateArchetype k).2 with entities := es } := by
  unfold World.getOrCreateArchetype
  cases h : assocGet w.index k <;> exact ⟨rfl, rfl⟩

theorem index_spawn_as_entity (w : World) (e' : Entity) (b : Bundle) :
    (w.spawn_as_entity e' b).index =
      ((w.getOrCreateArchetype (sortTys (b.map Prod.fst))).2).index := rfl

theorem entities_spawn_as_entity_loc (w : World) (e' : Entity) (b : Bundle) :
    ∃ idx, (w.spawn_as_entity e' b).entities =
      w.entities.insert e' ⟨(w.getOrCreateArchetype (sortTys (b.map Prod.fst))).1, idx⟩ := by
  unfold World.spawn_as_entity World.spawnIntoArchetype
  dsimp only
  rw [entities_getOrCreate]
  exact ⟨_, rfl⟩

theorem sortTys_eq_of_perm {l1 l2 : List TypeId} (h : l1.Perm l2) :
    sortTys l1 = sortTys l2 := by
  refine List.eq_of_perm_of_sorted
    ((List.perm_insertionSort _ l1).trans (h.trans (List.perm_insertionSort _ l2).symm))
    (List.sorted_insertionSort _ l1) (List.sorted_insertionSort _ l2)

/- ### Claim C8 -/

/-- **C8.** Two spawns whose bundles contain the same component types in
different orders resolve to one and the same archetype: the archetype lookup
is keyed by the sorted type-id vector.  Both entities' directory entries
name the same archetype index. -/
theorem spawn_order_independent (w : World) (b1 b2 : Bundle)
    (hWF : w.entities.WF)
    (hperm : (b1.map Prod.fst).Perm (b2.map Prod.fst)) :
    ∃ a i1 i2,
      ((w.spawn b1).2.spawn b2).2.entities.get (w.spawn b1).1 = some ⟨a, i1⟩ ∧
      ((w.spawn b1).2.spawn b2).2.entities.get ((w.spawn b1).2.spawn b2).1 = some ⟨a, i2⟩ := by
  have hkey := sortTys_eq_of_perm hperm
  obtain ⟨idx1, h1⟩ := entities_spawn_as_entity_loc
    { w with entities := (w.entities.alloc).2 } (w.entities.alloc).1 b1
  rw [(getOrCreate_entities_swap w (w.entities.alloc).2 (sortTys (b1.map Prod.fst))).1] at h1
  have hsp1 : (w.spawn b1).2 =
      World.spawn_as_entity { w with entities := (w.entities.alloc).2 }
        (w.entities.alloc).1 b1 := rfl
  have hw1get : (w.spawn b1).2.entities.get (w.entities.alloc).1 =
      some ⟨(w.getOrCreateArchetype (sortTys (b1.map Prod.fst))).1, idx1⟩ := by
    rw [hsp1, h1]
    exact Entities.get_insert_self _ _ _
  have hw1WF : (w.spawn b1).2.entities.WF := by
    rw [hsp1, h1]
    exact Entities.WF_insert_alloc w.entities _ hWF
  have hw1idx : assocGet (w.spawn b1).2.index (sortTys (b1.map Prod.fst)) =
      some (w.getOrCreateArchetype (sortTys (b1.map Prod.fst))).1 := by
    rw [hsp1, index_spawn_as_entity,
      (getOrCreate_entities_swap w (w.entities.alloc).2 (sortTys (b1.map Prod.fst))).2]
    exact getOrCreate_lookup w (sortTys (b1.map Prod.fst))
  obtain ⟨idx2, h2⟩ := entities_spawn_as_entity_loc
    { (w.spawn b1).2 with entities := ((w.spawn b1).2.entities.alloc).2 }
    ((w.spawn b1).2.entities.alloc).1 b2
  rw [(getOrCreate_entities_swap (w.spawn b1).2 ((w.spawn b1).2.entities.alloc).2
    (sortTys (b2.map Prod.fst))).1] at h2
  have haid2 : ((w.spawn b1).2.getOrCreateArchetype (sortTys (b2.map Prod.fst))).1 =
      (w.getOrCreateArchetype (sortTys (b1.map Prod.fst))).1 := by
    rw [← hkey]
    exact getOrCreate_found hw1idx
  rw [haid2] at h2
  have hsp2 : ((w.spawn b1).2.spawn b2).2 =
      World.spawn_as_entity
        { (w.spawn b1).2 with entities := ((w.spawn b1).2.entities.alloc).2 }
        ((w.spawn b1).2.entities.alloc).1 b2 := rfl
  refine ⟨(w.getOrCreateArchetype (sortTys (b1.map Prod.fst))).1, idx1, idx2, ?_, ?_⟩
  · rw [hsp2, h2]
    have he1 : (w.spawn b1).1 = (w.entities.alloc).1 := rfl
    rw [he1]
    exact Entities.get_insert_alloc_ne _ _ hw1WF hw1get
  · have he2 : ((w.spawn b1).2.spawn b2).1 = ((w.spawn b1).2.entities.alloc).1 := rfl
    rw [hsp2, he2, h2]
    exact Entities.get_insert_self _ _ _

/- ### Row-count bookkeeping (towards C7) -/

theorem Archetype.rows_len_putDynamic (a : Archetype) (ty : TypeId) (c : Option Val)
    (r : Nat) (mk : Bool) : (a.putDynamic ty c r mk).rows.length = a.rows.length := by
  unfold Archetype.putDynamic
  cases idxOf a.types ty with
  | none => rfl
  | some i =>
    dsimp only
    cases a.rows[r]? with
    | none => rfl
    | some row => simp

theorem Archetype.rows_len_bundle_put (b : Bundle) :
    ∀ (a : Archetype) (idx : Nat) (mk : Bool),
    (b.foldl (fun a p => a.putDynamic p.1 (some p.2) idx mk) a).rows.length =
      a.rows.length := by
  induction b with
  | nil => intro a idx mk; rfl
  | cons p ps ih =>
    intro a idx mk
    rw [List.foldl_cons, ih]
    exact Archetype.rows_len_putDynamic a p.1 (some p.2) idx mk

theorem getOrCreate_fst_lt (w : World) (k : List TypeId)
    (hidx : ∀ p ∈ w.index, p.2 < w.archetypes.length ∧
      (w.archetypes.getD p.2 default).types = p.1) :
    (w.getOrCreateArchetype k).1 < ((w.getOrCreateArchetype k).2).archetypes.length := by
  unfold World.getOrCreateArchetype
  cases h : assocGet w.index k with
  | some i =>
    dsimp only
    exact (hidx _ (assocGet_mem h)).1
  | none =>
    dsimp only
    simp

theorem spawnOneInto_archetypes_len (aid : Nat) (w : World) (b : Bundle) :
    (World.spawnOneInto aid w b).2.archetypes.length = w.archetypes.length := by
  unfold World.spawnOneInto World.spawnIntoArchetype
  simp

theorem spawnOneInto_rows (aid : Nat) (w : World) (b : Bundle)
    (haid : aid < w.archetypes.length) :
    ((World.spawnOneInto aid w b).2.archetypes.getD aid default).rows.length =
      (w.archetypes.getD aid default).rows.length + 1 := by
  unfold World.spawnOneInto World.spawnIntoArchetype
  dsimp only
  rw [List.getD_eq_getElem?_getD, List.getElem?_set_self (by simpa using haid),
    Option.getD_some, Archetype.rows_len_bundle_put]
  unfold Archetype.allocate
  simp

theorem spawnOneInto_preserves_get (aid : Nat) (w : World) (b : Bundle)
    (hWF : w.entities.WF) {f : Entity} {lf : Location}
    (hf : w.entities.get f = some lf) :
    (World.spawnOneInto aid w b).2.entities.get f = some lf := by
  unfold World.spawnOneInto World.spawnIntoArchetype
  dsimp only
  exact Entities.get_insert_alloc_ne _ _ hWF hf

theorem spawnOneInto_entities_WF (aid : Nat) (w : World) (b : Bundle)
    (hWF : w.entities.WF) : (World.spawnOneInto aid w b).2.entities.WF := by
  unfold World.spawnOneInto World.spawnIntoArchetype
  dsimp only
  exact Entities.WF_insert_alloc _ _ hWF

theorem spawnOneInto_new_live (aid : Nat) (w : World) (b : Bundle) :
    ((World.spawnOneInto aid w b).2.entities.get (World.spawnOneInto aid w b).1).isSome
      = true := by
  unfold World.spawnOneInto World.spawnIntoArchetype
  dsimp only
  rw [Entities.get_insert_self]
  rfl

theorem batchConsume_world (aid : Nat) (bs : List Bundle) :
    ∀ (w : World) (acc : List Entity),
    (bs.foldl (fun acc b =>
        let r := World.spawnOneInto aid acc.2 b
        (acc.1 ++ [r.1], r.2)) (acc, w)).2 =
      bs.foldl (fun w b => (World.spawnOneInto aid w b).2) w := by
  induction bs with
  | nil => intro w acc; rfl
  | cons b bs ih =>
    intro w acc
    rw [List.foldl_cons, List.foldl_cons]
    exact ih _ _

theorem batchConsume_fst_len (aid : Nat) (bs : List Bundle) :
    ∀ (w : World) (acc : List Entity),
    (bs.foldl (fun acc b =>
        let r := World.spawnOneInto aid acc.2 b
        (acc.1 ++ [r.1], r.2)) (acc, w)).1.length = acc.length + bs.length := by
  induction bs with
  | nil => intro w acc; simp
  | cons b bs ih =>
    intro w acc
    rw [List.foldl_cons]
    rw [ih]
    simp
    omega

theorem batchConsume_all_live (aid : Nat) (bs : List Bundle) :
    ∀ (w : World) (acc : List Entity), w.entities.WF →
    (∀ e ∈ acc, (w.entities.get e).isSome = true) →
    (∀ e ∈ (bs.foldl (fun acc b =>
        let r := World.spawnOneInto aid acc.2 b
        (acc.1 ++ [r.1], r.2)) (acc, w)).1,
      ((bs.foldl (fun acc b =>
        let r := World.spawnOneInto aid acc.2 b
        (acc.1 ++ [r.1], r.2)) (acc, w)).2.entities.get e).isSome = true) := by
  induction bs with
  | nil => intro w acc _ hacc; exact hacc
  | cons b bs ih =>
    intro w acc hWF hacc
    rw [List.foldl_cons]
    refine ih _ _ (spawnOneInto_entities_WF aid w b hWF) ?_
    intro e he
    rcases List.mem_append.mp he with hmem | hmem
    · have := hacc e hmem
      obtain ⟨lf, hlf⟩ := Option.isSome_iff_exists.mp this
      rw [spawnOneInto_preserves_get aid w b hWF hlf]
      rfl
    · rw [List.mem_singleton.mp hmem]
      exact spawnOneInto_new_live aid w b

theorem batchConsume_rows (aid : Nat) (bs : List Bundle) :
    ∀ (w : World), aid < w.archetypes.length →
    ((bs.foldl (fun w b => (World.spawnOneInto aid w b).2) w).archetypes.getD aid
        default).rows.length =
      (w.archetypes.getD aid default).rows.length + bs.length := by
  induction bs with
  | nil => intro w _; rfl
  | cons b bs ih =>
    intro w haid
    rw [List.foldl_cons, ih _ (by rw [spawnOneInto_archetypes_len]; exact haid),
      spawnOneInto_rows aid w b haid]
    simp only [List.length_cons]
    omega

/- ### Claim C7 -/

/-- **C7.** Dropping a partially consumed `SpawnBatchIter` runs the
remaining iterator to completion: after `k` `next()` calls, consuming the
rest (which is what `Drop` does) yields exactly the world of full
consumption; every bundle is spawned as a live entity (one entity per
bundle) and the batch archetype gains exactly one row per bundle — no
leaked pre-allocated rows. -/
theorem spawn_batch_drop_completes (w : World) (tys : List TypeId) (lower : Nat)
    (upper : Option Nat) (bs : List Bundle) (aid : Nat) (w1 : World) (k : Nat)
    (hWF : w.entities.WF)
    (hidx : ∀ p ∈ w.index, p.2 < w.archetypes.length ∧
      (w.archetypes.getD p.2 default).types = p.1)
    (hstart : w.spawnBatchStart tys lower upper = some (aid, w1)) :
    (World.batchConsume aid ((World.batchConsume aid w1 (bs.take k)).2) (bs.drop k)).2 =
      (World.batchConsume aid w1 bs).2 ∧
    (World.batchConsume aid w1 bs).1.length = bs.length ∧
    (∀ e ∈ (World.batchConsume aid w1 bs).1,
      (World.batchConsume aid w1 bs).2.contains e = true) ∧
    ((World.batchConsume aid w1 bs).2.archetypes.getD aid default).rows.length =
      (w1.archetypes.getD aid default).rows.length + bs.length := by
  have hw1 : w1 = (w.getOrCreateArchetype (sortTys tys)).2 ∧
      aid = (w.getOrCreateArchetype (sortTys tys)).1 := by
    unfold World.spawnBatchStart at hstart
    by_cases hcap : upper.getD lower < 2 ^ 32
    · rw [if_pos hcap] at hstart
      injection hstart with hstart
      exact ⟨congrArg Prod.snd hstart.symm, congrArg Prod.fst hstart.symm⟩
    · rw [if_neg hcap] at hstart
      simp at hstart
  have hWF1 : w1.entities.WF := by
    rw [hw1.1, entities_getOrCreate]
    exact hWF
  have haid : aid < w1.archetypes.length := by
    rw [hw1.1, hw1.2]
    exact getOrCreate_fst_lt w (sortTys tys) hidx
  refine ⟨?_, ?_, ?_, ?_⟩
  · unfold World.batchConsume
    rw [batchConsume_world, batchConsume_world, batchConsume_world, ← List.foldl_append,
      List.take_append_drop]
  · unfold World.batchConsume
    rw [batchConsume_fst_len]
    simp
  · intro e he
    unfold World.contains Entities.contains
    refine batchConsume_all_live aid bs w1 [] hWF1 (by intro e' he'; simp at he') e ?_
    exact he
  · unfold World.batchConsume
    rw [batchConsume_world]
    exact batchConsume_rows aid bs w1 haid

/-- A three-bundle batch on a fresh world, dropped after one `next()`. -/
def btBs : List Bundle := [[(1, 0)], [(1, 1)], [(1, 2)]]

theorem spawn_batch_drop_completes_witness :
    ((World.new.entities.WF ∧
      (∀ p ∈ World.new.index, p.2 < World.new.archetypes.length ∧
        (World.new.archetypes.getD p.2 default).types = p.1)) ∧
     World.new.spawnBatchStart [1] 3 (some 3) =
       some ((World.new.getOrCreateArchetype (sortTys [1])).1,
             (World.new.getOrCreateArchetype (sortTys [1])).2)) ∧
    ((World.batchConsume (World.new.getOrCreateArchetype (sortTys [1])).1
        ((World.batchConsume (World.new.getOrCreateArchetype (sortTys [1])).1
          (World.new.getOrCreateArchetype (sortTys [1])).2 (btBs.take 1)).2)
        (btBs.drop 1)).2 =
      (World.batchConsume (World.new.getOrCreateArchetype (sortTys [1])).1
        (World.new.getOrCreateArchetype (sortTys [1])).2 btBs).2 ∧
     (World.batchConsume (World.new.getOrCreateArchetype (sortTys [1])).1
        (World.new.getOrCreateArchetype (sortTys [1])).2 btBs).1.length = btBs.length ∧
     (∀ e ∈ (World.batchConsume (World.new.getOrCreateArchetype (sortTys [1])).1
        (World.new.getOrCreateArchetype (sortTys [1])).2 btBs).1,
       (World.batchConsume (World.new.getOrCreateArchetype (sortTys [1])).1
        (World.new.getOrCreateArchetype (sortTys [1])).2 btBs).2.contains e = true) ∧
     ((World.batchConsume (World.new.getOrCreateArchetype (sortTys [1])).1
        (World.new.getOrCreateArchetype (sortTys [1])).2 btBs).2.archetypes.getD
          (World.new.getOrCreateArchetype (sortTys [1])).1 default).rows.length =
       ((World.new.getOrCreateArchetype (sortTys [1])).2.archetypes.getD
          (World.new.getOrCreateArchetype (sortTys [1])).1 default).rows.length +
         btBs.length) :=
  ⟨⟨⟨by decide, by decide⟩, by decide⟩,
   spawn_batch_drop_completes World.new [1] 3 (some 3) btBs
     (World.new.getOrCreateArchetype (sortTys [1])).1
     (World.new.getOrCreateArchetype (sortTys [1])).2 1
     (by decide) (by decide) (by decide)⟩

/- ### Cell and tracking-bit accessors, and write locality -/

/-- The row record at index `r` (total, defaulting like the other reads). -/
def Archetype.rowAt (a : Archetype) (r : Nat) : Row :=
  a.rows.getD r default

/-- The added bit for `ty` at row `r`, when the archetype has `ty`. -/
def Archetype.addedBit (a : Archetype) (ty : TypeId) (r : Nat) : Option Bool :=
  (idxOf a.types ty).map fun i => ((a.rowAt r).added.getD i false)

/-- The mutated bit for `ty` at row `r`, when the archetype has `ty`. -/
def Archetype.mutatedBit (a : Archetype) (ty : TypeId) (r : Nat) : Option Bool :=
  (idxOf a.types ty).map fun i => ((a.rowAt r).mutated.getD i false)

theorem Archetype.getDynamic_isSome_iff (a : Archetype) (ty : TypeId) (r : Nat) :
    ((a.getDynamic ty r).isSome = true) ↔ ty ∈ a.types := by
  unfold Archetype.getDynamic
  rw [Option.isSome_map']
  exact idxOf_isSome_iff

theorem Archetype.types_putDynamic (a : Archetype) (ty : TypeId) (c : Option Val)
    (r : Nat) (mk : Bool) : (a.putDynamic ty c r mk).types = a.types := by
  unfold Archetype.putDynamic
  cases idxOf a.types ty with
  | none => rfl
  | some i =>
    dsimp only
    cases a.rows[r]? <;> rfl

theorem Archetype.types_copyCell (a : Archetype) (ty : TypeId) (c : Option Val)
    (r : Nat) : (a.copyCell ty c r).types = a.types := by
  unfold Archetype.copyCell
  cases idxOf a.types ty with
  | none => rfl
  | some i =>
    dsimp only
    cases a.rows[r]? <;> rfl

theorem Archetype.types_setBits (a : Archetype) (ty : TypeId) (r : Nat) (ad mu : Bool) :
    (a.setBits ty r ad mu).types = a.types := by
  unfold Archetype.setBits
  cases idxOf a.types ty with
  | none => rfl
  | some i =>
    dsimp only
    cases a.rows[r]? <;> rfl

theorem Archetype.types_allocate (a : Archetype) (eid : Nat) :
    ((a.allocate eid).2).types = a.types := rfl

theorem Archetype.types_bundle_put (b : Bundle) :
    ∀ (a : Archetype) (idx : Nat) (mk : Bool),
    (b.foldl (fun a p => a.putDynamic p.1 (some p.2) idx mk) a).types = a.types := by
  induction b with
  | nil => intro a idx mk; rfl
  | cons p ps ih =>
    intro a idx mk
    rw [List.foldl_cons, ih, Archetype.types_putDynamic]

theorem Archetype.rowAt_putDynamic_ne (a : Archetype) (ty : TypeId) (c : Option Val)
    (row : Nat) (mk : Bool) {r : Nat} (hne : r ≠ row) :
    (a.putDynamic ty c row mk).rowAt r = a.rowAt r := by
  unfold Archetype.putDynamic Archetype.rowAt
  cases idxOf a.types ty with
  | none => rfl
  | some i =>
    dsimp only
    cases a.rows[row]? with
    | none => rfl
    | some rw0 =>
      dsimp only
      rw [List.getD_eq_getElem?_getD, List.getElem?_set_ne (fun he => hne he.symm),
        List.getD_eq_getElem?_getD]

theorem Archetype.rowAt_copyCell_ne (a : Archetype) (ty : TypeId) (c : Option Val)
    (row : Nat) {r : Nat} (hne : r ≠ row) :
    (a.copyCell ty c row).rowAt r = a.rowAt r := by
  unfold Archetype.copyCell Archetype.rowAt
  cases idxOf a.types ty with
  | none => rfl
  | some i =>
    dsimp only
    cases a.rows[row]? with
    | none => rfl
    | some rw0 =>
      dsimp only
      rw [List.getD_eq_getElem?_getD, List.getElem?_set_ne (fun he => hne he.symm),
        List.getD_eq_getElem?_getD]

theorem Archetype.rowAt_setBits_ne (a : Archetype) (ty : TypeId) (row : Nat)
    (ad mu : Bool) {r : Nat} (hne : r ≠ row) :
    (a.setBits ty row ad mu).rowAt r = a.rowAt r := by
  unfold Archetype.setBits Archetype.rowAt
  cases idxOf a.types ty with
  | none => rfl
  | some i =>
    dsimp only
    cases a.rows[row]? with
    | none => rfl
    | some rw0 =>
      dsimp only
      rw [List.getD_eq_getElem?_getD, List.getElem?_set_ne (fun he => hne he.symm),
        List.getD_eq_getElem?_getD]

theorem Archetype.rowAt_allocate_lt (a : Archetype) (eid : Nat) {r : Nat}
    (hr : r < a.rows.length) : ((a.allocate eid).2).rowAt r = a.rowAt r := by
  unfold Archetype.allocate Archetype.rowAt
  dsimp only
  rw [List.getD_eq_getElem?_getD, List.getElem?_append, if_pos hr,
    List.getD_eq_getElem?_getD]

theorem Archetype.rowAt_bundle_put_ne (b : Bundle) :
    ∀ (a : Archetype) (idx : Nat) (mk : Bool) {r : Nat}, r ≠ idx →
    (b.foldl (fun a p => a.putDynamic p.1 (some p.2) idx mk) a).rowAt r = a.rowAt r := by
  induction b with
  | nil => intro a idx mk r _; rfl
  | cons p ps ih =>
    intro a idx mk r hne
    rw [List.foldl_cons, ih _ idx mk hne, Archetype.rowAt_putDynamic_ne _ _ _ _ _ hne]

theorem Archetype.rowAt_emfold_ne (ems : List (TypeId × Option Val × Bool × Bool)) :
    ∀ (a : Archetype) (idx : Nat) {r : Nat}, r ≠ idx →
    (ems.foldl (fun a em =>
      (a.putDynamic em.1 em.2.1 idx false).setBits em.1 idx em.2.2.1 em.2.2.2) a).rowAt r =
      a.rowAt r := by
  induction ems with
  | nil => intro a idx r _; rfl
  | cons em ems ih =>
    intro a idx r hne
    rw [List.foldl_cons, ih _ idx hne, Archetype.rowAt_setBits_ne _ _ _ _ _ hne,
      Archetype.rowAt_putDynamic_ne _ _ _ _ _ hne]

theorem Archetype.rowAt_removeStep_fold_ne (e' : Entity) (tIdx : Nat)
    (ems : List (TypeId × Option Val × Bool × Bool)) :
    ∀ (acc : Archetype × RemovedMap) {r : Nat}, r ≠ tIdx →
    ((ems.foldl (fun acc em =>
      if (acc.1.getDynamic em.1 tIdx).isSome then
        ((acc.1.copyCell em.1 em.2.1 tIdx).setBits em.1 tIdx em.2.2.1 em.2.2.2, acc.2)
      else
        (acc.1, pushRemoved acc.2 em.1 e')) acc).1).rowAt r = acc.1.rowAt r := by
  induction ems with
  | nil => intro acc r _; rfl
  | cons em ems ih =>
    intro acc r hne
    rw [List.foldl_cons]
    by_cases hc : ((acc.1.getDynamic em.1 tIdx).isSome : Prop)
    · rw [if_pos hc, ih _ hne]
      dsimp only
      rw [Archetype.rowAt_setBits_ne _ _ _ _ _ hne, Archetype.rowAt_copyCell_ne _ _ _ _ hne]
    · rw [if_neg hc, ih _ hne]

theorem Archetype.types_emfold (ems : List (TypeId × Option Val × Bool × Bool)) :
    ∀ (a : Archetype) (idx : Nat),
    (ems.foldl (fun a em =>
      (a.putDynamic em.1 em.2.1 idx false).setBits em.1 idx em.2.2.1 em.2.2.2) a).types =
      a.types := by
  induction ems with
  | nil => intro a idx; rfl
  | cons em ems ih =>
    intro a idx
    rw [List.foldl_cons, ih, Archetype.types_setBits, Archetype.types_putDynamic]

theorem Archetype.types_removeStep_fold (e' : Entity) (tIdx : Nat)
    (ems : List (TypeId × Option Val × Bool × Bool)) :
    ∀ (acc : Archetype × RemovedMap),
    ((ems.foldl (fun acc em =>
      if (acc.1.getDynamic em.1 tIdx).isSome then
        ((acc.1.copyCell em.1 em.2.1 tIdx).setBits em.1 tIdx em.2.2.1 em.2.2.2, acc.2)
      else
        (acc.1, pushRemoved acc.2 em.1 e')) acc).1).types = acc.1.types := by
  induction ems with
  | nil => intro acc; rfl
  | cons em ems ih =>
    intro acc
    rw [List.foldl_cons]
    by_cases hc : ((acc.1.getDynamic em.1 tIdx).isSome : Prop)
    · rw [if_pos hc, ih]
      dsimp only
      rw [Archetype.types_setBits, Archetype.types_copyCell]
    · rw [if_neg hc, ih]

theorem Archetype.types_removeRow (a : Archetype) (row : Nat) :
    ((a.removeRow row).1).types = a.types := rfl

theorem Archetype.rowAt_removeRow_lt (a : Archetype) (row : Nat) {r : Nat}
    (hne : r ≠ row) (hr : r < a.rows.length - 1) :
    ((a.removeRow row).1).rowAt r = a.rowAt r := by
  unfold Archetype.removeRow Archetype.rowAt
  dsimp only
  rw [List.getD_eq_getElem?_getD, getElem?_swapRemove_ne hne hr,
    List.getD_eq_getElem?_getD]

theorem Archetype.rowAt_removeRow_last (a : Archetype) (row : Nat)
    (hr : row < a.rows.length - 1) :
    ((a.removeRow row).1).rowAt row = a.rowAt (a.rows.length - 1) := by
  unfold Archetype.removeRow Archetype.rowAt
  dsimp only
  rw [List.getD_eq_getElem?_getD, getElem?_swapRemove_self hr, List.getD_eq_getElem?_getD]

theorem Archetype.rowAt_putDynamic_self (a : Archetype) (ty : TypeId) (c : Option Val)
    (row : Nat) (mk : Bool) {i : Nat} (hidx : idxOf a.types ty = some i)
    (hrow : row < a.rows.length) :
    (a.putDynamic ty c row mk).rowAt row = Archetype.Row.put (a.rowAt row) i c mk := by
  unfold Archetype.putDynamic Archetype.rowAt
  rw [hidx]
  cases hr : a.rows[row]? with
  | none => exact absurd hr (by rw [List.getElem?_eq_some_iff.mpr ⟨hrow, rfl⟩]; simp)
  | some r =>
    dsimp only
    rw [List.getD_eq_getElem?_getD, List.getElem?_set_self (by simpa using hrow),
      Option.getD_some, List.getD_eq_getElem?_getD, hr, Option.getD_some]

theorem Archetype.getDynamic_putDynamic_self (a : Archetype) (ty : TypeId) (c : Option Val)
    (row : Nat) (mk : Bool) {i : Nat} (hidx : idxOf a.types ty = some i)
    (hrow : row < a.rows.length)
    (hcl : (a.rowAt row).cells.length = a.types.length) :
    (a.putDynamic ty c row mk).getDynamic ty row = some c := by
  unfold Archetype.getDynamic
  rw [Archetype.types_putDynamic, hidx, Option.map_some']
  show some (((a.putDynamic ty c row mk).rowAt row).cells.getD i none) = some c
  rw [Archetype.rowAt_putDynamic_self a ty c row mk hidx hrow]
  unfold Archetype.Row.put
  dsimp only
  rw [List.getD_eq_getElem?_getD,
    List.getElem?_set_self (by rw [hcl]; exact (idxOf_spec hidx).1), Option.getD_some]

theorem Archetype.mutatedBit_putDynamic_self (a : Archetype) (ty : TypeId) (c : Option Val)
    (row : Nat) (mk : Bool) {i : Nat} (hidx : idxOf a.types ty = some i)
    (hrow : row < a.rows.length)
    (hml : (a.rowAt row).mutated.length = a.types.length) :
    (a.putDynamic ty c row mk).mutatedBit ty row = some true := by
  unfold Archetype.mutatedBit
  rw [Archetype.types_putDynamic, hidx, Option.map_some']
  rw [Archetype.rowAt_putDynamic_self a ty c row mk hidx hrow]
  unfold Archetype.Row.put
  dsimp only
  rw [List.getD_eq_getElem?_getD,
    List.getElem?_set_self (by rw [hml]; exact (idxOf_spec hidx).1), Option.getD_some]

theorem Archetype.rowAt_added_putDynamic_false (a : Archetype) (ty' : TypeId)
    (c : Option Val) (row r : Nat) :
    ((a.putDynamic ty' c row false).rowAt r).added = (a.rowAt r).added := by
  unfold Archetype.putDynamic
  cases idxOf a.types ty' with
  | none => rfl
  | some i' =>
    dsimp only
    cases hr : a.rows[row]? with
    | none => rfl
    | some rw0 =>
      unfold Archetype.rowAt
      dsimp only
      by_cases he : r = row
      · subst he
        rw [List.getD_eq_getElem?_getD,
          List.getElem?_set_self (by exact (List.getElem?_eq_some_iff.mp hr).1),
          Option.getD_some, List.getD_eq_getElem?_getD, hr, Option.getD_some]
        rfl
      · rw [List.getD_eq_getElem?_getD, List.getElem?_set_ne (fun h2 => he h2.symm),
          List.getD_eq_getElem?_getD]

theorem Archetype.addedBit_putDynamic_false (a : Archetype) (ty' ty : TypeId)
    (c : Option Val) (row : Nat) (r : Nat) :
    (a.putDynamic ty' c row false).addedBit ty r = a.addedBit ty r := by
  unfold Archetype.addedBit
  rw [Archetype.types_putDynamic, Archetype.rowAt_added_putDynamic_false]

theorem getD_set_true_of_true {l : List Bool} {i : Nat} (i' : Nat)
    (h : l.getD i false = true) : (l.set i' true).getD i false = true := by
  have hlt : i < l.length := by
    by_contra hge
    rw [List.getD_eq_getElem?_getD, List.getElem?_eq_none (by omega)] at h
    simp at h
  by_cases he : i' = i
  · subst he
    rw [List.getD_eq_getElem?_getD, List.getElem?_set_self (by simpa using hlt)]
    rfl
  · rw [List.getD_eq_getElem?_getD, List.getElem?_set_ne he, ← List.getD_eq_getElem?_getD]
    exact h

theorem Archetype.rowAt_added_putDynamic_keep_true (a : Archetype) (ty' : TypeId)
    (c : Option Val) (row : Nat) (mk : Bool) {i : Nat}
    (h : ((a.rowAt row).added.getD i false) = true) :
    (((a.putDynamic ty' c row mk).rowAt row).added.getD i false) = true := by
  unfold Archetype.putDynamic
  cases idxOf a.types ty' with
  | none => exact h
  | some i' =>
    dsimp only
    cases hr : a.rows[row]? with
    | none => exact h
    | some rw0 =>
      unfold Archetype.rowAt at h ⊢
      dsimp only
      rw [List.getD_eq_getElem?_getD (a.rows.set row (Archetype.Row.put rw0 i' c mk)) row
          default,
        List.getElem?_set_self (by exact (List.getElem?_eq_some_iff.mp hr).1),
        Option.getD_some]
      rw [List.getD_eq_getElem?_getD a.rows row default, hr, Option.getD_some] at h
      unfold Archetype.Row.put
      dsimp only
      cases mk with
      | false => exact h
      | true => exact getD_set_true_of_true i' h

theorem Archetype.addedBit_putDynamic_keep_true (a : Archetype) (ty' ty : TypeId)
    (c : Option Val) (row : Nat) (mk : Bool)
    (h : a.addedBit ty row = some true) :
    (a.putDynamic ty' c row mk).addedBit ty row = some true := by
  unfold Archetype.addedBit at h ⊢
  rw [Archetype.types_putDynamic]
  cases hi : idxOf a.types ty with
  | none => rw [hi] at h; simp at h
  | some i =>
    rw [hi] at h
    simp only [Option.map_some', Option.some.injEq] at h ⊢
    exact Archetype.rowAt_added_putDynamic_keep_true a ty' c row mk h

theorem Archetype.addedBit_putDynamic_true_self (a : Archetype) (ty : TypeId)
    (c : Option Val) (row : Nat) {i : Nat} (hidx : idxOf a.types ty = some i)
    (hrow : row < a.rows.length)
    (hal : (a.rowAt row).added.length = a.types.length) :
    (a.putDynamic ty c row true).addedBit ty row = some true := by
  unfold Archetype.addedBit
  rw [Archetype.types_putDynamic, hidx, Option.map_some']
  rw [Archetype.rowAt_putDynamic_self a ty c row true hidx hrow]
  unfold Archetype.Row.put
  dsimp only
  rw [if_pos rfl, List.getD_eq_getElem?_getD,
    List.getElem?_set_self (by rw [hal]; exact (idxOf_spec hidx).1), Option.getD_some]

theorem Archetype.addedBit_bundle_put_keep_true (b : Bundle) :
    ∀ (a : Archetype) (row : Nat) (ty : TypeId), a.addedBit ty row = some true →
    (b.foldl (fun a p => a.putDynamic p.1 (some p.2) row true) a).addedBit ty row =
      some true := by
  induction b with
  | nil => intro a row ty h; exact h
  | cons p ps ih =>
    intro a row ty h
    rw [List.foldl_cons]
    exact ih _ row ty (Archetype.addedBit_putDynamic_keep_true a p.1 ty _ row true h)

theorem Entities.get_unfold {es : Entities} {e : Entity} {loc : Location}
    (h : es.get e = some loc) :
    ∃ s, es.slots[e.id]? = some s ∧ s.generation = e.generation ∧ s.loc = some loc := by
  unfold Entities.get at h
  cases hs : es.slots[e.id]? with
  | none => rw [hs] at h; simp at h
  | some s =>
    rw [hs] at h
    dsimp only at h
    by_cases hg : s.generation = e.generation
    · rw [if_pos hg] at h
      exact ⟨s, rfl, hg, h⟩
    · rw [if_neg hg] at h
      simp at h

theorem WF_live_loc {w : World} {e : Entity} {loc : Location} (hWF : w.WF)
    (hloc : w.entities.get e = some loc) :
    loc.archetype < w.archetypes.length ∧
    loc.index < (w.archetypes.getD loc.archetype default).rows.length ∧
    ((w.archetypes.getD loc.archetype default).rowAt loc.index).eid = e.id := by
  obtain ⟨s, hs, hg, hl⟩ := Entities.get_unfold hloc
  have hid : e.id < w.entities.slots.length := (List.getElem?_eq_some_iff.mp hs).1
  have hdir := hWF.2.2.2.1 e.id hid
  rw [List.getD_eq_getElem?_getD, hs, Option.getD_some, hl] at hdir
  exact ⟨hdir.1, hdir.2.1, hdir.2.2⟩

theorem arch_WF_of_lt {w : World} (hWF : w.WF) {i : Nat} (h : i < w.archetypes.length) :
    (w.archetypes.getD i default).WF := by
  refine hWF.1 _ ?_
  rw [List.getD_eq_getElem?_getD]
  cases hs : w.archetypes[i]? with
  | none => exact absurd hs (by rw [List.getElem?_eq_some_iff.mpr ⟨h, rfl⟩]; simp)
  | some a =>
    rw [Option.getD_some]
    exact List.getElem?_mem hs

theorem rowAt_WF {a : Archetype} (hWF : a.WF) {r : Nat} (hr : r < a.rows.length) :
    (a.rowAt r).cells.length = a.types.length ∧
    (a.rowAt r).added.length = a.types.length ∧
    (a.rowAt r).mutated.length = a.types.length ∧
    ∀ c ∈ (a.rowAt r).cells, c.isSome = true := by
  refine hWF.2 _ ?_
  unfold Archetype.rowAt
  rw [List.getD_eq_getElem?_getD]
  cases hs : a.rows[r]? with
  | none => exact absurd hs (by rw [List.getElem?_eq_some_iff.mpr ⟨hr, rfl⟩]; simp)
  | some row =>
    rw [Option.getD_some]
    exact List.getElem?_mem hs

theorem getOrCreate_found_world {w : World} {k : List TypeId} {i : Nat}
    (h : assocGet w.index k = some i) : w.getOrCreateArchetype k = (i, w) := by
  unfold World.getOrCreateArchetype
  rw [h]

theorem getOrCreate_archetypes_getD_lt (w : World) (k : List TypeId) {i : Nat}
    (h : i < w.archetypes.length) :
    ((w.getOrCreateArchetype k).2).archetypes.getD i default =
      w.archetypes.getD i default := by
  unfold World.getOrCreateArchetype
  cases hs : assocGet w.index k with
  | some j => rfl
  | none =>
    dsimp only
    rw [List.getD_eq_getElem?_getD, List.getElem?_append, if_pos h,
      List.getD_eq_getElem?_getD]

theorem getOrCreate_types (w : World) (k : List TypeId)
    (hidx : ∀ p ∈ w.index, p.2 < w.archetypes.length ∧
      (w.archetypes.getD p.2 default).types = p.1) :
    (((w.getOrCreateArchetype k).2).archetypes.getD (w.getOrCreateArchetype k).1
      default).types = k := by
  unfold World.getOrCreateArchetype
  cases hs : assocGet w.index k with
  | some j =>
    dsimp only
    exact (hidx _ (assocGet_mem hs)).2
  | none =>
    dsimp only
    rw [List.getD_eq_getElem?_getD, List.getElem?_concat_length, Option.getD_some]
    rfl

theorem Archetype.added_len_putDynamic (a : Archetype) (ty : TypeId) (c : Option Val)
    (row : Nat) (mk : Bool) (r : Nat) :
    ((a.putDynamic ty c row mk).rowAt r).added.length = (a.rowAt r).added.length := by
  unfold Archetype.putDynamic
  cases idxOf a.types ty with
  | none => rfl
  | some i =>
    dsimp only
    cases hr : a.rows[row]? with
    | none => rfl
    | some rw0 =>
      unfold Archetype.rowAt
      dsimp only
      by_cases he : r = row
      · subst he
        rw [List.getD_eq_getElem?_getD (a.rows.set r (Archetype.Row.put rw0 i c mk)) r default,
          List.getElem?_set_self (by exact (List.getElem?_eq_some_iff.mp hr).1),
          Option.getD_some, List.getD_eq_getElem?_getD a.rows r default, hr, Option.getD_some]
        unfold Archetype.Row.put
        dsimp only
        cases mk <;> simp
      · rw [List.getD_eq_getElem?_getD (a.rows.set row (Archetype.Row.put rw0 i c mk)) r
            default,
          List.getElem?_set_ne (fun h2 => he h2.symm), List.getD_eq_getElem?_getD]

theorem Archetype.allocate_fst (a : Archetype) (eid : Nat) :
    (a.allocate eid).1 = a.rows.length := rfl

theorem Archetype.rowAt_allocate_self (a : Archetype) (eid : Nat) :
    ((a.allocate eid).2).rowAt a.rows.length =
      ⟨eid, a.types.map fun _ => none, a.types.map fun _ => false,
        a.types.map fun _ => false⟩ := by
  unfold Archetype.allocate Archetype.rowAt
  dsimp only
  rw [List.getD_eq_getElem?_getD, List.getElem?_concat_length, Option.getD_some]

theorem Archetype.addedBit_bundle_put_true (b : Bundle) :
    ∀ (a : Archetype) (row : Nat) (ty : TypeId),
    ty ∈ b.map Prod.fst → ty ∈ a.types → row < a.rows.length →
    (a.rowAt row).added.length = a.types.length →
    (b.foldl (fun a p => a.putDynamic p.1 (some p.2) row true) a).addedBit ty row =
      some true := by
  induction b with
  | nil => intro a row ty hin _ _ _; simp at hin
  | cons p ps ih =>
    intro a row ty hin htyA hrow hal
    rw [List.foldl_cons]
    rw [List.map_cons] at hin
    rcases List.mem_cons.mp hin with he | hm
    · subst he
      obtain ⟨i, hidx⟩ := Option.isSome_iff_exists.mp (idxOf_isSome_iff.mpr htyA)
      exact Archetype.addedBit_bundle_put_keep_true ps _ row p.1
        (Archetype.addedBit_putDynamic_true_self a p.1 (some p.2) row hidx hrow hal)
    · refine ih _ row ty hm ?_ ?_ ?_
      · rw [Archetype.types_putDynamic]; exact htyA
      · rw [Archetype.rows_len_putDynamic]; exact hrow
      · rw [Archetype.added_len_putDynamic, Archetype.types_putDynamic]; exact hal

theorem archetypes_spawn_as_entity (w : World) (e' : Entity) (b : Bundle) :
    (w.spawn_as_entity e' b).archetypes =
      ((w.getOrCreateArchetype (sortTys (b.map Prod.fst))).2).archetypes.set
        (w.getOrCreateArchetype (sortTys (b.map Prod.fst))).1
        (b.foldl (fun a p => a.putDynamic p.1 (some p.2)
            ((((w.getOrCreateArchetype (sortTys (b.map Prod.fst))).2).archetypes.getD
              (w.getOrCreateArchetype (sortTys (b.map Prod.fst))).1 default).allocate
                e'.id).1 true)
          (((((w.getOrCreateArchetype (sortTys (b.map Prod.fst))).2).archetypes.getD
            (w.getOrCreateArchetype (sortTys (b.map Prod.fst))).1 default).allocate
              e'.id).2)) := rfl

theorem entities_spawn_as_entity_eq (w : World) (e' : Entity) (b : Bundle) :
    (w.spawn_as_entity e' b).entities =
      w.entities.insert e'
        ⟨(w.getOrCreateArchetype (sortTys (b.map Prod.fst))).1,
         ((((w.getOrCreateArchetype (sortTys (b.map Prod.fst))).2).archetypes.getD
           (w.getOrCreateArchetype (sortTys (b.map Prod.fst))).1 default).allocate
             e'.id).1⟩ := by
  unfold World.spawn_as_entity World.spawnIntoArchetype
  dsimp only
  rw [entities_getOrCreate]

/-- `spawn` gives the freshly spawned entity's row the added bit for every
component type of its bundle. -/
theorem spawn_sets_added (w0 : World) (b0 : Bundle) (ty0 : TypeId)
    (hWF0 : w0.WF) (hin : ty0 ∈ b0.map Prod.fst) :
    ∃ l0, ((w0.spawn b0).2).entities.get (w0.spawn b0).1 = some l0 ∧
      (((w0.spawn b0).2).archetypes.getD l0.archetype default).addedBit ty0 l0.index =
        some true := by
  have hsp : (w0.spawn b0).2 =
      World.spawn_as_entity { w0 with entities := (w0.entities.alloc).2 }
        (w0.entities.alloc).1 b0 := rfl
  have hspe : (w0.spawn b0).1 = (w0.entities.alloc).1 := rfl
  have hidxs : ∀ p ∈ w0.index, p.2 < w0.archetypes.length ∧
      (w0.archetypes.getD p.2 default).types = p.1 := hWF0.2.2.1
  have hswap := getOrCreate_entities_swap w0 (w0.entities.alloc).2
    (sortTys (b0.map Prod.fst))
  have hents := entities_spawn_as_entity_eq
    { w0 with entities := (w0.entities.alloc).2 } (w0.entities.alloc).1 b0
  rw [hswap.1, hswap.2] at hents
  dsimp only at hents
  have harch := archetypes_spawn_as_entity
    { w0 with entities := (w0.entities.alloc).2 } (w0.entities.alloc).1 b0
  rw [hswap.1, hswap.2] at harch
  dsimp only at harch
  refine ⟨⟨(w0.getOrCreateArchetype (sortTys (b0.map Prod.fst))).1,
    ((((w0.getOrCreateArchetype (sortTys (b0.map Prod.fst))).2).archetypes.getD
      (w0.getOrCreateArchetype (sortTys (b0.map Prod.fst))).1 default).allocate
        ((w0.entities.alloc).1).id).1⟩, ?_, ?_⟩
  · rw [hspe, hsp, hents]
    exact Entities.get_insert_self _ _ _
  · rw [hsp, harch]
    dsimp only
    have hlt : (w0.getOrCreateArchetype (sortTys (b0.map Prod.fst))).1 <
        ((w0.getOrCreateArchetype (sortTys (b0.map Prod.fst))).2).archetypes.length :=
      getOrCreate_fst_lt w0 _ hidxs
    rw [List.getD_eq_getElem?_getD, List.getElem?_set_self (by simpa using hlt),
      Option.getD_some]
    have htypes := getOrCreate_types w0 (sortTys (b0.map Prod.fst)) hidxs
    refine Archetype.addedBit_bundle_put_true b0 _ _ ty0 hin ?_ ?_ ?_
    · rw [Archetype.types_allocate, htypes]
      exact ((List.perm_insertionSort _ _).mem_iff).mpr hin
    · show (_ : Nat) < _
      unfold Archetype.allocate
      simp
    · rw [Archetype.allocate_fst, Archetype.rowAt_allocate_self, Archetype.types_allocate]
      simp

/- ### Claim C2 -/

/-- **C2.** Overwriting an existing component: for a live entity `E` that
already has type `T`, `insert(E, (T:v2))` takes the same-archetype fast
path — `E`'s directory entry (archetype and row) is unchanged — `get<T>(E)`
then yields `v2`, `T`'s mutated bit at `E`'s row is set, and the added bit
is exactly what it was before the overwrite; the added bit itself is set by
the operation that first gives an entity the component (shown for `spawn`
in the second conjunct). -/
theorem insert_overwrite_same_archetype (w : World) (e : Entity) (loc : Location)
    (ty : TypeId) (v2 : Val)
    (hWF : w.WF)
    (hloc : w.entities.get e = some loc)
    (hty : ty ∈ (w.archetypes.getD loc.archetype default).types) :
    (w.insert e [(ty, v2)] = some (w.insertFast loc [(ty, v2)]) ∧
      (w.insertFast loc [(ty, v2)]).entities.get e = some loc ∧
      (w.insertFast loc [(ty, v2)]).get e ty = .ok (some v2) ∧
      ((w.insertFast loc [(ty, v2)]).archetypes.getD loc.archetype default).mutatedBit ty
        loc.index = some true ∧
      ((w.insertFast loc [(ty, v2)]).archetypes.getD loc.archetype default).addedBit ty
        loc.index = (w.archetypes.getD loc.archetype default).addedBit ty loc.index ∧
      ((w.insertFast loc [(ty, v2)]).archetypes.getD loc.archetype default).types =
        (w.archetypes.getD loc.archetype default).types) ∧
    (∀ (w0 : World) (b0 : Bundle) (ty0 : TypeId), w0.WF → ty0 ∈ b0.map Prod.fst →
      ∃ l0, ((w0.spawn b0).2).entities.get (w0.spawn b0).1 = some l0 ∧
        (((w0.spawn b0).2).archetypes.getD l0.archetype default).addedBit ty0 l0.index =
          some true) := by
  obtain ⟨hlt, hrow, heid⟩ := WF_live_loc hWF hloc
  have hAWF := arch_WF_of_lt hWF hlt
  obtain ⟨i, hidx⟩ := Option.isSome_iff_exists.mp (idxOf_isSome_iff.mpr hty)
  have h0 : loc.archetype ≠ 0 := by
    intro h0
    rw [h0, hWF.2.2.2.2.2.2.2] at hty
    simp at hty
  have hfilter : (sortTys ([(ty, v2)].map Prod.fst)).filter
      (fun t => ((w.archetypes.getD loc.archetype default).getDynamic t
        loc.index).isNone) = [] := by
    have hsort : sortTys ([(ty, v2)].map Prod.fst) = [ty] := by
      simp [sortTys, List.insertionSort, List.orderedInsert]
    rw [hsort]
    have hsome := (Archetype.getDynamic_isSome_iff
      (w.archetypes.getD loc.archetype default) ty loc.index).mpr hty
    have hn : ((w.archetypes.getD loc.archetype default).getDynamic ty
        loc.index).isNone = false := by
      cases hgd : (w.archetypes.getD loc.archetype default).getDynamic ty loc.index with
      | none => rw [hgd] at hsome; simp at hsome
      | some cell => rfl
    rw [List.filter_cons]
    simp only [hn]
    simp
  have hinfo : sortTys ((w.archetypes.getD loc.archetype default).types ++ []) =
      (w.archetypes.getD loc.archetype default).types := by
    rw [List.append_nil]
    exact List.Sorted.insertionSort_eq (hAWF.1.imp (fun h => le_of_lt h))
  have hgoc := getOrCreate_found_world (hWF.2.1 loc.archetype hlt)
  have hfast : w.insert e [(ty, v2)] = some (w.insertFast loc [(ty, v2)]) := by
    unfold World.insert
    rw [hloc]
    dsimp only
    rw [hfilter, hinfo, hgoc]
    simp
  have harchD : (w.insertFast loc [(ty, v2)]).archetypes.getD loc.archetype default =
      (w.archetypes.getD loc.archetype default).putDynamic ty (some v2) loc.index
        false := by
    unfold World.insertFast
    dsimp only
    rw [List.getD_eq_getElem?_getD, List.getElem?_set_self (by simpa using hlt),
      Option.getD_some]
    rfl
  have hents : (w.insertFast loc [(ty, v2)]).entities = w.entities := rfl
  refine ⟨⟨hfast, ?_, ?_, ?_, ?_, ?_⟩,
    fun w0 b0 ty0 hWF0 hin => spawn_sets_added w0 b0 ty0 hWF0 hin⟩
  · rw [hents]
    exact hloc
  · unfold World.get
    rw [hents, hloc]
    dsimp only
    rw [if_neg h0, harchD,
      Archetype.getDynamic_putDynamic_self _ ty (some v2) loc.index false hidx hrow
        (rowAt_WF hAWF hrow).1]
  · rw [harchD]
    exact Archetype.mutatedBit_putDynamic_self _ ty (some v2) loc.index false hidx hrow
      (rowAt_WF hAWF hrow).2.2.1
  · rw [harchD]
    exact Archetype.addedBit_putDynamic_false _ ty ty (some v2) loc.index loc.index
  · rw [harchD]
    exact Archetype.types_putDynamic _ ty (some v2) loc.index false

/- ### Bundle reads and directory rewrites (towards C1) -/

theorem bundleGet_ok_of_present (R : List TypeId) (a : Archetype) (row : Nat)
    (h : ∀ ty ∈ R, ty ∈ a.types) :
    bundleGet R a row = .ok (R.map fun ty => (a.getDynamic ty row).getD none) := by
  induction R with
  | nil => rfl
  | cons ty rest ih =>
    have hmem := h ty (List.mem_cons_self ty rest)
    have hsome := (Archetype.getDynamic_isSome_iff a ty row).mpr hmem
    cases hgd : a.getDynamic ty row with
    | none => rw [hgd] at hsome; simp at hsome
    | some c =>
      unfold bundleGet
      rw [hgd, ih (fun t ht => h t (List.mem_cons_of_mem _ ht))]
      rw [List.map_cons, hgd]
      rfl

theorem bundleGet_error_of_missing (R : List TypeId) (a : Archetype) (row : Nat)
    (h : ∃ ty ∈ R, ty ∉ a.types) :
    ∃ t, t ∈ R ∧ t ∉ a.types ∧ bundleGet R a row = .error t := by
  induction R with
  | nil => simp at h
  | cons ty rest ih =>
    cases hgd : a.getDynamic ty row with
    | none =>
      refine ⟨ty, List.mem_cons_self ty rest, ?_, ?_⟩
      · intro hmem
        have := (Archetype.getDynamic_isSome_iff a ty row).mpr hmem
        rw [hgd] at this
        simp at this
      · unfold bundleGet
        rw [hgd]
    | some c =>
      have hty : ty ∈ a.types := by
        have := (Archetype.getDynamic_isSome_iff a ty row).mp (by rw [hgd]; rfl)
        exact this
      obtain ⟨t, htR, htA⟩ := h
      rcases List.mem_cons.mp htR with he | hm
      · subst he
        exact absurd hty htA
      · obtain ⟨t', ht'1, ht'2, ht'3⟩ := ih ⟨t, hm, htA⟩
        refine ⟨t', List.mem_cons_of_mem _ ht'1, ht'2, ?_⟩
        unfold bundleGet
        rw [hgd, ht'3]
        rfl

theorem Entities.get_setLoc_self {es : Entities} {e : Entity} {l0 : Location} (l : Location)
    (h : es.get e = some l0) : (es.setLoc e l).get e = some l := by
  obtain ⟨s, hs, hg, _⟩ := Entities.get_unfold h
  unfold Entities.setLoc Entities.get
  rw [hs]
  dsimp only
  rw [List.getElem?_set_self ((List.getElem?_eq_some_iff.mp hs).1)]
  dsimp only
  rw [if_pos hg]

theorem Entities.get_setIndex_ne {es : Entities} (id' idx : Nat) {f : Entity}
    (hne : id' ≠ f.id) : (es.setIndex id' idx).get f = es.get f := by
  unfold Entities.setIndex Entities.get
  cases hs : es.slots[id']? with
  | none => rfl
  | some s =>
    dsimp only
    rw [List.getElem?_set_ne hne]

theorem Archetype.getDynamic_eq_none_of_notmem {a : Archetype} {ty : TypeId} (r : Nat)
    (h : ty ∉ a.types) : a.getDynamic ty r = none := by
  unfold Archetype.getDynamic
  rw [idxOf_eq_none_iff.mpr h]
  rfl

theorem removeFinish_get_e (w1 : World) (e : Entity) (loc : Location) (target : Nat)
    (hloc1 : w1.entities.get e = some loc)
    (hmv : ∀ mid, ((w1.archetypes.getD loc.archetype default).removeRow loc.index).2 =
      some mid → mid ≠ e.id) :
    (w1.removeFinish e loc target).entities.get e =
      some ⟨target, ((w1.archetypes.getD target default).allocate e.id).1⟩ := by
  unfold World.removeFinish
  dsimp only
  cases hmvv : ((w1.archetypes.getD loc.archetype default).removeRow loc.index).2 with
  | none => exact Entities.get_setLoc_self _ hloc1
  | some mid =>
    rw [Entities.get_setIndex_ne _ _ (hmv mid hmvv)]
    exact Entities.get_setLoc_self _ hloc1

theorem removeFinish_target_types (w1 : World) (e : Entity) (loc : Location)
    (target : Nat) (hne : loc.archetype ≠ target) (htlt : target < w1.archetypes.length) :
    ((w1.removeFinish e loc target).archetypes.getD target default).types =
      (w1.archetypes.getD target default).types := by
  unfold World.removeFinish
  dsimp only
  rw [List.getD_eq_getElem?_getD,
    List.getElem?_set_self (by rw [List.length_set]; exact htlt), Option.getD_some,
    Archetype.types_removeStep_fold, Archetype.types_allocate]

/- ### Sibling-preservation toolkit (towards C4) -/

theorem Entities.get_setLoc_ne {es : Entities} (e' : Entity) (l : Location) {f : Entity}
    (hne : e'.id ≠ f.id) : (es.setLoc e' l).get f = es.get f := by
  unfold Entities.setLoc Entities.get
  cases hs : es.slots[e'.id]? with
  | none => rfl
  | some s =>
    dsimp only
    rw [List.getElem?_set_ne hne]

theorem Entities.get_setIndex_self {es : Entities} {f : Entity} {lf : Location} (idx : Nat)
    (h : es.get f = some lf) :
    (es.setIndex f.id idx).get f = some ⟨lf.archetype, idx⟩ := by
  obtain ⟨s, hs, hg, hl⟩ := Entities.get_unfold h
  unfold Entities.setIndex Entities.get
  rw [hs]
  dsimp only
  rw [List.getElem?_set_self ((List.getElem?_eq_some_iff.mp hs).1)]
  dsimp only
  rw [if_pos hg, hl]
  rfl

theorem live_ids_ne {es : Entities} {e f : Entity} {le lf : Location} (hne : e ≠ f)
    (he : es.get e = some le) (hf : es.get f = some lf) : e.id ≠ f.id := by
  intro hid
  obtain ⟨s, hs, hg, hl⟩ := Entities.get_unfold he
  obtain ⟨s', hs', hg', hl'⟩ := Entities.get_unfold hf
  rw [hid, hs'] at hs
  injection hs with hs
  apply hne
  cases e with
  | mk ei eg =>
    cases f with
    | mk fi fg =>
      simp only at hid hg hg'
      rw [hid]
      rw [hs] at hg'
      rw [← hg, ← hg']

theorem Archetype.removeRow_moved_spec {a : Archetype} {row : Nat} {mid : Nat}
    (h : (a.removeRow row).2 = some mid) :
    row + 1 < a.rows.length ∧ (a.rowAt (a.rows.length - 1)).eid = mid := by
  unfold Archetype.removeRow at h
  dsimp only at h
  by_cases hc : row + 1 < a.rows.length
  · rw [if_pos hc] at h
    refine ⟨hc, ?_⟩
    rw [List.getLast?_eq_getElem?] at h
    cases hl : a.rows[a.rows.length - 1]? with
    | none => rw [hl] at h; simp at h
    | some lr =>
      rw [hl] at h
      simp only [Option.map_some', Option.some.injEq] at h
      unfold Archetype.rowAt
      rw [List.getD_eq_getElem?_getD, hl, Option.getD_some, h]
  · rw [if_neg hc] at h
    simp at h

theorem Archetype.removeRow_moved_none {a : Archetype} {row : Nat}
    (h : (a.removeRow row).2 = none) : ¬ row + 1 < a.rows.length := by
  unfold Archetype.removeRow at h
  dsimp only at h
  by_cases hc : row + 1 < a.rows.length
  · rw [if_pos hc] at h
    rw [List.getLast?_eq_getElem?] at h
    cases hl : a.rows[a.rows.length - 1]? with
    | none =>
      have := List.getElem?_eq_none_iff.mp hl
      omega
    | some lr =>
      rw [hl] at h
      simp at h
  · exact hc

theorem WF_row_eid_loc {w : World} (hWF : w.WF) {i : Nat} (hi : i < w.archetypes.length)
    {r : Nat} (hr : r < (w.archetypes.getD i default).rows.length) :
    ((w.archetypes.getD i default).rowAt r).eid < w.entities.slots.length ∧
    (w.entities.slots.getD ((w.archetypes.getD i default).rowAt r).eid default).loc =
      some ⟨i, r⟩ :=
  hWF.2.2.2.2.1 i hi r hr

theorem getOrCreate_len_le (w : World) (k : List TypeId) :
    w.archetypes.length ≤ ((w.getOrCreateArchetype k).2).archetypes.length := by
  rcases getOrCreate_genlen w k with ⟨_, h⟩ | ⟨_, h⟩ <;> omega

theorem getOrCreate_miss_fst {w : World} {k : List TypeId}
    (h : assocGet w.index k = none) :
    (w.getOrCreateArchetype k).1 = w.archetypes.length := by
  unfold World.getOrCreateArchetype
  rw [h]

/-- The double `set` performed by a migration leaves any third archetype's
types untouched, and — away from the vacated row — its rows too, provided the
target-archetype rewrite `tgtX` itself only appends rows. -/
theorem finish_arch_frame (w1 : World) (locE locF : Location) (target : Nat)
    (tgtX : Archetype)
    (hTne : target ≠ locE.archetype)
    (hFlt : locF.archetype < w1.archetypes.length)
    (hElt : locE.archetype < w1.archetypes.length)
    (htypes : tgtX.types = (w1.archetypes.getD target default).types)
    (hrowsX : ∀ r, r < (w1.archetypes.getD target default).rows.length →
      tgtX.rowAt r = (w1.archetypes.getD target default).rowAt r)
    (hFrT : locF.archetype = target →
      locF.index < (w1.archetypes.getD target default).rows.length)
    (hne1 : locF.archetype = locE.archetype → locF.index ≠ locE.index)
    (hlt1 : locF.archetype = locE.archetype →
      locF.index < (w1.archetypes.getD locE.archetype default).rows.length - 1) :
    (((w1.archetypes.set locE.archetype
        ((w1.archetypes.getD locE.archetype default).removeRow locE.index).1).set target
        tgtX).getD locF.archetype default).types =
      (w1.archetypes.getD locF.archetype default).types ∧
    (((w1.archetypes.set locE.archetype
        ((w1.archetypes.getD locE.archetype default).removeRow locE.index).1).set target
        tgtX).getD locF.archetype default).rowAt locF.index =
      (w1.archetypes.getD locF.archetype default).rowAt locF.index := by
  by_cases hFt : locF.archetype = target
  · have hgd : ((w1.archetypes.set locE.archetype
        ((w1.archetypes.getD locE.archetype default).removeRow locE.index).1).set target
        tgtX).getD locF.archetype default = tgtX := by
      rw [List.getD_eq_getElem?_getD, hFt,
        List.getElem?_set_self (by rw [List.length_set]; exact hFt ▸ hFlt),
        Option.getD_some]
    rw [hgd, htypes, hFt]
    exact ⟨rfl, hrowsX locF.index (hFrT hFt)⟩
  · have hgd1 : ((w1.archetypes.set locE.archetype
        ((w1.archetypes.getD locE.archetype default).removeRow locE.index).1).set target
        tgtX).getD locF.archetype default =
        (w1.archetypes.set locE.archetype
          ((w1.archetypes.getD locE.archetype default).removeRow locE.index).1).getD
          locF.archetype default := by
      rw [List.getD_eq_getElem?_getD ((w1.archetypes.set locE.archetype
          ((w1.archetypes.getD locE.archetype default).removeRow locE.index).1).set target
          tgtX) locF.archetype default,
        List.getElem?_set_ne (fun hh => hFt hh.symm),
        ← List.getD_eq_getElem?_getD (w1.archetypes.set locE.archetype
          ((w1.archetypes.getD locE.archetype default).removeRow locE.index).1)
          locF.archetype default]
    rw [hgd1]
    by_cases hFE : locF.archetype = locE.archetype
    · have hgd2 : (w1.archetypes.set locE.archetype
          ((w1.archetypes.getD locE.archetype default).removeRow locE.index).1).getD
          locF.archetype default =
          ((w1.archetypes.getD locE.archetype default).removeRow locE.index).1 := by
        rw [List.getD_eq_getElem?_getD, hFE, List.getElem?_set_self hElt, Option.getD_some]
      rw [hgd2, hFE]
      exact ⟨Archetype.types_removeRow _ _,
        Archetype.rowAt_removeRow_lt _ _ (hne1 hFE) (hlt1 hFE)⟩
    · have hgd2 : (w1.archetypes.set locE.archetype
          ((w1.archetypes.getD locE.archetype default).removeRow locE.index).1).getD
          locF.archetype default = w1.archetypes.getD locF.archetype default := by
        rw [List.getD_eq_getElem?_getD, List.getElem?_set_ne (fun hh => hFE hh.symm),
          List.getD_eq_getElem?_getD]
      rw [hgd2]
      exact ⟨rfl, rfl⟩

/-- The double `set` of a migration, at the source archetype itself: away
from the target, the swapped-in row at the vacated slot is the source's old
last row. -/
theorem finish_arch_swapped (w1 : World) (locE : Location) (target : Nat)
    (tgtX : Archetype)
    (hTne : target ≠ locE.archetype)
    (hElt : locE.archetype < w1.archetypes.length)
    (hlt : locE.index < (w1.archetypes.getD locE.archetype default).rows.length - 1) :
    (((w1.archetypes.set locE.archetype
        ((w1.archetypes.getD locE.archetype default).removeRow locE.index).1).set target
        tgtX).getD locE.archetype default).types =
      (w1.archetypes.getD locE.archetype default).types ∧
    (((w1.archetypes.set locE.archetype
        ((w1.archetypes.getD locE.archetype default).removeRow locE.index).1).set target
        tgtX).getD locE.archetype default).rowAt locE.index =
      (w1.archetypes.getD locE.archetype default).rowAt
        ((w1.archetypes.getD locE.archetype default).rows.length - 1) := by
  have hgd : ((w1.archetypes.set locE.archetype
      ((w1.archetypes.getD locE.archetype default).removeRow locE.index).1).set target
      tgtX).getD locE.archetype default =
      ((w1.archetypes.getD locE.archetype default).removeRow locE.index).1 := by
    rw [List.getD_eq_getElem?_getD, List.getElem?_set_ne hTne,
      List.getElem?_set_self hElt, Option.getD_some]
  rw [hgd]
  exact ⟨Archetype.types_removeRow _ _, Archetype.rowAt_removeRow_last _ _ hlt⟩

/-- `World::insert`'s writes into the freshly allocated target row leave the
target's type vector and every pre-existing row untouched. -/
theorem insert_target_frame (tgt : Archetype) (eid : Nat)
    (ems : List (TypeId × Option Val × Bool × Bool)) (b : Bundle) :
    (b.foldl (fun a p => a.putDynamic p.1 (some p.2) (tgt.allocate eid).1 true)
      (ems.foldl (fun a em =>
        (a.putDynamic em.1 em.2.1 (tgt.allocate eid).1 false).setBits em.1
          (tgt.allocate eid).1 em.2.2.1 em.2.2.2) (tgt.allocate eid).2)).types =
      tgt.types ∧
    ∀ r, r < tgt.rows.length →
      (b.foldl (fun a p => a.putDynamic p.1 (some p.2) (tgt.allocate eid).1 true)
        (ems.foldl (fun a em =>
          (a.putDynamic em.1 em.2.1 (tgt.allocate eid).1 false).setBits em.1
            (tgt.allocate eid).1 em.2.2.1 em.2.2.2) (tgt.allocate eid).2)).rowAt r =
        tgt.rowAt r := by
  constructor
  · rw [Archetype.types_bundle_put, Archetype.types_emfold, Archetype.types_allocate]
  · intro r hr
    have hne : r ≠ (tgt.allocate eid).1 := by
      rw [Archetype.allocate_fst]
      omega
    rw [Archetype.rowAt_bundle_put_ne _ _ _ _ hne, Archetype.rowAt_emfold_ne _ _ _ hne,
      Archetype.rowAt_allocate_lt _ _ hr]

/-- `World::remove`'s copy-or-log pass over the freshly allocated target row
leaves the target's type vector and every pre-existing row untouched. -/
theorem remove_target_frame (tgt : Archetype) (eid : Nat) (e : Entity) (rc : RemovedMap)
    (ems : List (TypeId × Option Val × Bool × Bool)) :
    ((ems.foldl (fun acc em =>
        if (acc.1.getDynamic em.1 (tgt.allocate eid).1).isSome then
          ((acc.1.copyCell em.1 em.2.1 (tgt.allocate eid).1).setBits em.1
            (tgt.allocate eid).1 em.2.2.1 em.2.2.2, acc.2)
        else
          (acc.1, pushRemoved acc.2 em.1 e)) ((tgt.allocate eid).2, rc)).1).types =
      tgt.types ∧
    ∀ r, r < tgt.rows.length →
      ((ems.foldl (fun acc em =>
          if (acc.1.getDynamic em.1 (tgt.allocate eid).1).isSome then
            ((acc.1.copyCell em.1 em.2.1 (tgt.allocate eid).1).setBits em.1
              (tgt.allocate eid).1 em.2.2.1 em.2.2.2, acc.2)
          else
            (acc.1, pushRemoved acc.2 em.1 e)) ((tgt.allocate eid).2, rc)).1).rowAt r =
        tgt.rowAt r := by
  constructor
  · rw [Archetype.types_removeStep_fold]
    exact Archetype.types_allocate tgt eid
  · intro r hr
    have hne : r ≠ (tgt.allocate eid).1 := by
      rw [Archetype.allocate_fst]
      omega
    rw [Archetype.rowAt_removeStep_fold_ne _ _ _ _ hne]
    exact Archetype.rowAt_allocate_lt tgt eid hr

/-- Frame property of `World::insert`'s migration path for a second entity
`f`: its archetype is unchanged, its row either stays put or — exactly when
`f` held the source archetype's last row — moves into the vacated slot with
the directory patched, and its stored row data is bit-for-bit unchanged. -/
theorem insertFinish_sibling (w1 : World) (e f : Entity) (locE locF : Location)
    (target : Nat) (b : Bundle)
    (hids : e.id ≠ f.id)
    (hF1 : w1.entities.get f = some locF)
    (hTne : target ≠ locE.archetype)
    (hFlt : locF.archetype < w1.archetypes.length)
    (hElt : locE.archetype < w1.archetypes.length)
    (hEr : locE.index < (w1.archetypes.getD locE.archetype default).rows.length)
    (hFr : locF.index < (w1.archetypes.getD locF.archetype default).rows.length)
    (hFeid : ((w1.archetypes.getD locF.archetype default).rowAt locF.index).eid = f.id)
    (hne1 : locF.archetype = locE.archetype → locF.index ≠ locE.index)
    (hswap : ∀ mid,
      ((w1.archetypes.getD locE.archetype default).removeRow locE.index).2 = some mid →
      mid = f.id →
      locF.archetype = locE.archetype ∧
      locF.index + 1 = (w1.archetypes.getD locE.archetype default).rows.length) :
    ∃ locF', (w1.insertFinish e locE target b).entities.get f = some locF' ∧
      locF'.archetype = locF.archetype ∧
      (locF'.index = locF.index ∨
        (locF.archetype = locE.archetype ∧
         locF.index + 1 = (w1.archetypes.getD locE.archetype default).rows.length ∧
         locF'.index = locE.index)) ∧
      ((w1.insertFinish e locE target b).archetypes.getD locF'.archetype default).types =
        (w1.archetypes.getD locF.archetype default).types ∧
      ((w1.insertFinish e locE target b).archetypes.getD locF'.archetype default).rowAt
          locF'.index =
        (w1.archetypes.getD locF.archetype default).rowAt locF.index := by
  have hframe := insert_target_frame (w1.archetypes.getD target default) e.id
    ((w1.archetypes.getD locE.archetype default).emissions locE.index) b
  unfold World.insertFinish
  dsimp only
  cases hmv : ((w1.archetypes.getD locE.archetype default).removeRow locE.index).2 with
  | none =>
    have hmn := Archetype.removeRow_moved_none hmv
    have hfa := finish_arch_frame w1 locE locF target _ hTne hFlt hElt hframe.1 hframe.2
      (fun hFt => hFt ▸ hFr) hne1
      (fun hFE => by
        have h1 := hFr
        rw [hFE] at h1
        have h2 := hne1 hFE
        omega)
    refine ⟨locF, ?_, rfl, Or.inl rfl, hfa.1, hfa.2⟩
    rw [Entities.get_setLoc_ne _ _ hids]
    exact hF1
  | some mid =>
    by_cases hmf : mid = f.id
    · obtain ⟨hFE, hFlast⟩ := hswap mid hmv hmf
      obtain ⟨hlt2, hlasteid⟩ := Archetype.removeRow_moved_spec hmv
      have hswp := finish_arch_swapped w1 locE target
        (b.foldl (fun a p => a.putDynamic p.1 (some p.2)
            (((w1.archetypes.getD target default).allocate e.id).1) true)
          (((w1.archetypes.getD locE.archetype default).emissions locE.index).foldl
            (fun a em => (a.putDynamic em.1 em.2.1
                (((w1.archetypes.getD target default).allocate e.id).1) false).setBits em.1
              (((w1.archetypes.getD target default).allocate e.id).1) em.2.2.1 em.2.2.2)
            (((w1.archetypes.getD target default).allocate e.id).2)))
        hTne hElt (by omega)
      refine ⟨⟨locF.archetype, locE.index⟩, ?_, rfl, Or.inr ⟨hFE, hFlast, rfl⟩, ?_, ?_⟩
      · subst hmf
        exact Entities.get_setIndex_self locE.index
          (by rw [Entities.get_setLoc_ne _ _ hids]; exact hF1)
      · rw [hFE]
        exact hswp.1
      · rw [hFE]
        rw [hswp.2]
        have hlfx : (w1.archetypes.getD locE.archetype default).rows.length - 1 =
            locF.index := by omega
        rw [hlfx]
    · obtain ⟨hlt2, hlasteid⟩ := Archetype.removeRow_moved_spec hmv
      have hlt1 : locF.archetype = locE.archetype →
          locF.index < (w1.archetypes.getD locE.archetype default).rows.length - 1 := by
        intro hFE
        have h1 := hFr
        rw [hFE] at h1
        have h2 : locF.index ≠
            (w1.archetypes.getD locE.archetype default).rows.length - 1 := by
          intro heq
          apply hmf
          have h3 := hFeid
          rw [hFE, heq] at h3
          rw [h3] at hlasteid
          exact hlasteid.symm
        omega
      have hfa := finish_arch_frame w1 locE locF target _ hTne hFlt hElt hframe.1 hframe.2
        (fun hFt => hFt ▸ hFr) hne1 hlt1
      refine ⟨locF, ?_, rfl, Or.inl rfl, hfa.1, hfa.2⟩
      rw [Entities.get_setIndex_ne _ _ (fun hh => hmf hh),
        Entities.get_setLoc_ne _ _ hids]
      exact hF1

/-- Frame property of `World::remove`'s migration path for a second entity
`f`: identical to the insert case — archetype unchanged, row moved only via
the swap-remove fix-up, row data unchanged. -/
theorem removeFinish_sibling (w1 : World) (e f : Entity) (locE locF : Location)
    (target : Nat)
    (hids : e.id ≠ f.id)
    (hF1 : w1.entities.get f = some locF)
    (hTne : target ≠ locE.archetype)
    (hFlt : locF.archetype < w1.archetypes.length)
    (hElt : locE.archetype < w1.archetypes.length)
    (hEr : locE.index < (w1.archetypes.getD locE.archetype default).rows.length)
    (hFr : locF.index < (w1.archetypes.getD locF.archetype default).rows.length)
    (hFeid : ((w1.archetypes.getD locF.archetype default).rowAt locF.index).eid = f.id)
    (hne1 : locF.archetype = locE.archetype → locF.index ≠ locE.index)
    (hswap : ∀ mid,
      ((w1.archetypes.getD locE.archetype default).removeRow locE.index).2 = some mid →
      mid = f.id →
      locF.archetype = locE.archetype ∧
      locF.index + 1 = (w1.archetypes.getD locE.archetype default).rows.length) :
    ∃ locF', (w1.removeFinish e locE target).entities.get f = some locF' ∧
      locF'.archetype = locF.archetype ∧
      (locF'.index = locF.index ∨
        (locF.archetype = locE.archetype ∧
         locF.index + 1 = (w1.archetypes.getD locE.archetype default).rows.length ∧
         locF'.index = locE.index)) ∧
      ((w1.removeFinish e locE target).archetypes.getD locF'.archetype default).types =
        (w1.archetypes.getD locF.archetype default).types ∧
      ((w1.removeFinish e locE target).archetypes.getD locF'.archetype default).rowAt
          locF'.index =
        (w1.archetypes.getD locF.archetype default).rowAt locF.index := by
  have hframe := remove_target_frame (w1.archetypes.getD target default) e.id e
    w1.removed_components
    ((w1.archetypes.getD locE.archetype default).emissions locE.index)
  unfold World.removeFinish
  dsimp only
  cases hmv : ((w1.archetypes.getD locE.archetype default).removeRow locE.index).2 with
  | none =>
    have hmn := Archetype.removeRow_moved_none hmv
    have hfa := finish_arch_frame w1 locE locF target _ hTne hFlt hElt hframe.1 hframe.2
      (fun hFt => hFt ▸ hFr) hne1
      (fun hFE => by
        have h1 := hFr
        rw [hFE] at h1
        have h2 := hne1 hFE
        omega)
    refine ⟨locF, ?_, rfl, Or.inl rfl, hfa.1, hfa.2⟩
    rw [Entities.get_setLoc_ne _ _ hids]
    exact hF1
  | some mid =>
    by_cases hmf : mid = f.id
    · obtain ⟨hFE, hFlast⟩ := hswap mid hmv hmf
      obtain ⟨hlt2, hlasteid⟩ := Archetype.removeRow_moved_spec hmv
      have hswp := finish_arch_swapped w1 locE target
        ((((w1.archetypes.getD locE.archetype default).emissions locE.index).foldl
          (fun acc em =>
            if (acc.1.getDynamic em.1
                (((w1.archetypes.getD target default).allocate e.id).1)).isSome then
              ((acc.1.copyCell em.1 em.2.1
                  (((w1.archetypes.getD target default).allocate e.id).1)).setBits em.1
                (((w1.archetypes.getD target default).allocate e.id).1) em.2.2.1 em.2.2.2,
                acc.2)
            else
              (acc.1, pushRemoved acc.2 em.1 e))
          ((((w1.archetypes.getD target default).allocate e.id).2),
            w1.removed_components)).1)
        hTne hElt (by omega)
      refine ⟨⟨locF.archetype, locE.index⟩, ?_, rfl, Or.inr ⟨hFE, hFlast, rfl⟩, ?_, ?_⟩
      · subst hmf
        exact Entities.get_setIndex_self locE.index
          (by rw [Entities.get_setLoc_ne _ _ hids]; exact hF1)
      · rw [hFE]
        exact hswp.1
      · rw [hFE]
        rw [hswp.2]
        have hlfx : (w1.archetypes.getD locE.archetype default).rows.length - 1 =
            locF.index := by omega
        rw [hlfx]
    · obtain ⟨hlt2, hlasteid⟩ := Archetype.removeRow_moved_spec hmv
      have hlt1 : locF.archetype = locE.archetype →
          locF.index < (w1.archetypes.getD locE.archetype default).rows.length - 1 := by
        intro hFE
        have h1 := hFr
        rw [hFE] at h1
        have h2 : locF.index ≠
            (w1.archetypes.getD locE.archetype default).rows.length - 1 := by
          intro heq
          apply hmf
          have h3 := hFeid
          rw [hFE, heq] at h3
          rw [h3] at hlasteid
          exact hlasteid.symm
        omega
      have hfa := finish_arch_frame w1 locE locF target _ hTne hFlt hElt hframe.1 hframe.2
        (fun hFt => hFt ▸ hFr) hne1 hlt1
      refine ⟨locF, ?_, rfl, Or.inl rfl, hfa.1, hfa.2⟩
      rw [Entities.get_setIndex_ne _ _ (fun hh => hmf hh),
        Entities.get_setLoc_ne _ _ hids]
      exact hF1

/-- `World::insert`'s same-archetype fast path only rewrites the bundle's
cells at `E`'s own row: any other row of any archetype is untouched. -/
theorem insertFast_sibling (w : World) (locE locF : Location) (b : Bundle)
    (hFlt : locF.archetype < w.archetypes.length)
    (hne1 : locF.archetype = locE.archetype → locF.index ≠ locE.index) :
    ((w.insertFast locE b).archetypes.getD locF.archetype default).types =
      (w.archetypes.getD locF.archetype default).types ∧
    ((w.insertFast locE b).archetypes.getD locF.archetype default).rowAt locF.index =
      (w.archetypes.getD locF.archetype default).rowAt locF.index := by
  unfold World.insertFast
  dsimp only
  by_cases hFE : locF.archetype = locE.archetype
  · have hgd : (w.archetypes.set locE.archetype
        (b.foldl (fun a p => a.putDynamic p.1 (some p.2) locE.index false)
          (w.archetypes.getD locE.archetype default))).getD locF.archetype default =
        b.foldl (fun a p => a.putDynamic p.1 (some p.2) locE.index false)
          (w.archetypes.getD locE.archetype default) := by
      rw [List.getD_eq_getElem?_getD, hFE,
        List.getElem?_set_self (by rw [← hFE]; exact hFlt), Option.getD_some]
    rw [hgd, hFE]
    exact ⟨Archetype.types_bundle_put b _ locE.index false,
      Archetype.rowAt_bundle_put_ne b _ locE.index false (hne1 hFE)⟩
  · have hgd : (w.archetypes.set locE.archetype
        (b.foldl (fun a p => a.putDynamic p.1 (some p.2) locE.index false)
          (w.archetypes.getD locE.archetype default))).getD locF.archetype default =
        w.archetypes.getD locF.archetype default := by
      rw [List.getD_eq_getElem?_getD, List.getElem?_set_ne (fun hh => hFE hh.symm),
        ← List.getD_eq_getElem?_getD]
    rw [hgd]
    exact ⟨rfl, rfl⟩

/-- When `World::insert`'s target archetype equals the source, the
lookup-or-create step was a pure lookup and left the world untouched. -/
theorem insertFast_hit (w : World) (k : List TypeId) (locE : Location)
    (hElt : locE.archetype < w.archetypes.length)
    (hcond : (w.getOrCreateArchetype k).1 = locE.archetype) :
    (w.getOrCreateArchetype k).2 = w := by
  cases hag : assocGet w.index k with
  | none =>
    exfalso
    have hfst := getOrCreate_miss_fst hag
    omega
  | some i =>
    rw [getOrCreate_found_world hag]

/-- The migration path of `World::insert`, stated against the pre-call world:
the lookup-or-create step moves to `w1`, and the frame facts transfer. -/
theorem insertFinish_sibling_w (w : World) (k : List TypeId) (e f : Entity)
    (locE locF : Location) (b : Bundle)
    (hWF : w.WF) (hids : e.id ≠ f.id)
    (hE : w.entities.get e = some locE)
    (hF : w.entities.get f = some locF)
    (hTne : (w.getOrCreateArchetype k).1 ≠ locE.archetype) :
    ∃ locF', ((w.getOrCreateArchetype k).2.insertFinish e locE
        (w.getOrCreateArchetype k).1 b).entities.get f = some locF' ∧
      locF'.archetype = locF.archetype ∧
      (locF'.index = locF.index ∨
        (locF.archetype = locE.archetype ∧
         locF.index + 1 = (w.archetypes.getD locE.archetype default).rows.length ∧
         locF'.index = locE.index)) ∧
      (((w.getOrCreateArchetype k).2.insertFinish e locE
          (w.getOrCreateArchetype k).1 b).archetypes.getD locF'.archetype default).types =
        (w.archetypes.getD locF.archetype default).types ∧
      (((w.getOrCreateArchetype k).2.insertFinish e locE
          (w.getOrCreateArchetype k).1 b).archetypes.getD locF'.archetype default).rowAt
          locF'.index =
        (w.archetypes.getD locF.archetype default).rowAt locF.index := by
  obtain ⟨hElt, hEr, hEeid⟩ := WF_live_loc hWF hE
  obtain ⟨hFlt, hFr, hFeid⟩ := WF_live_loc hWF hF
  have hne1 : locF.archetype = locE.archetype → locF.index ≠ locE.index := by
    intro hFE heq
    apply hids
    rw [← hEeid, ← hFeid, hFE, heq]
  have hsrcE := getOrCreate_archetypes_getD_lt w k hElt
  have hsrcF := getOrCreate_archetypes_getD_lt w k hFlt
  have hswap : ∀ mid,
      ((((w.getOrCreateArchetype k).2).archetypes.getD locE.archetype
        default).removeRow locE.index).2 = some mid → mid = f.id →
      locF.archetype = locE.archetype ∧
      locF.index + 1 =
        ((((w.getOrCreateArchetype k).2).archetypes.getD locE.archetype
          default)).rows.length := by
    intro mid hmid hmf
    rw [hsrcE] at hmid ⊢
    obtain ⟨h1, h2⟩ := Archetype.removeRow_moved_spec hmid
    unfold Archetype.rowAt at h2
    have h5 := hWF.2.2.2.2.1 locE.archetype hElt
      ((w.archetypes.getD locE.archetype default).rows.length - 1) (by omega)
    rw [h2, hmf] at h5
    obtain ⟨s, hs, hg, hl⟩ := Entities.get_unfold hF
    rw [List.getD_eq_getElem?_getD, hs, Option.getD_some, hl] at h5
    have h6 := h5.2
    injection h6 with h6
    constructor
    · rw [h6]
    · rw [h6]
      dsimp only
      omega
  obtain ⟨locF', hget, harch, hrow, htypes, hcells⟩ :=
    insertFinish_sibling ((w.getOrCreateArchetype k).2) e f locE locF
      ((w.getOrCreateArchetype k).1) b hids
      (by rw [entities_getOrCreate]; exact hF) hTne
      (lt_of_lt_of_le hFlt (getOrCreate_len_le w k))
      (lt_of_lt_of_le hElt (getOrCreate_len_le w k))
      (by rw [hsrcE]; exact hEr)
      (by rw [hsrcF]; exact hFr)
      (by rw [hsrcF]; exact hFeid)
      hne1 hswap
  rw [hsrcE] at hrow
  rw [hsrcF] at htypes hcells
  exact ⟨locF', hget, harch, hrow, htypes, hcells⟩

/-- The migration path of `World::remove`, stated against the pre-call
world. -/
theorem removeFinish_sibling_w (w : World) (k : List TypeId) (e f : Entity)
    (locE locF : Location)
    (hWF : w.WF) (hids : e.id ≠ f.id)
    (hE : w.entities.get e = some locE)
    (hF : w.entities.get f = some locF)
    (hTne : (w.getOrCreateArchetype k).1 ≠ locE.archetype) :
    ∃ locF', ((w.getOrCreateArchetype k).2.removeFinish e locE
        (w.getOrCreateArchetype k).1).entities.get f = some locF' ∧
      locF'.archetype = locF.archetype ∧
      (locF'.index = locF.index ∨
        (locF.archetype = locE.archetype ∧
         locF.index + 1 = (w.archetypes.getD locE.archetype default).rows.length ∧
         locF'.index = locE.index)) ∧
      (((w.getOrCreateArchetype k).2.removeFinish e locE
          (w.getOrCreateArchetype k).1).archetypes.getD locF'.archetype default).types =
        (w.archetypes.getD locF.archetype default).types ∧
      (((w.getOrCreateArchetype k).2.removeFinish e locE
          (w.getOrCreateArchetype k).1).archetypes.getD locF'.archetype default).rowAt
          locF'.index =
        (w.archetypes.getD locF.archetype default).rowAt locF.index := by
  obtain ⟨hElt, hEr, hEeid⟩ := WF_live_loc hWF hE
  obtain ⟨hFlt, hFr, hFeid⟩ := WF_live_loc hWF hF
  have hne1 : locF.archetype = locE.archetype → locF.index ≠ locE.index := by
    intro hFE heq
    apply hids
    rw [← hEeid, ← hFeid, hFE, heq]
  have hsrcE := getOrCreate_archetypes_getD_lt w k hElt
  have hsrcF := getOrCreate_archetypes_getD_lt w k hFlt
  have hswap : ∀ mid,
      ((((w.getOrCreateArchetype k).2).archetypes.getD locE.archetype
        default).removeRow locE.index).2 = some mid → mid = f.id →
      locF.archetype = locE.archetype ∧
      locF.index + 1 =
        ((((w.getOrCreateArchetype k).2).archetypes.getD locE.archetype
          default)).rows.length := by
    intro mid hmid hmf
    rw [hsrcE] at hmid ⊢
    obtain ⟨h1, h2⟩ := Archetype.removeRow_moved_spec hmid
    unfold Archetype.rowAt at h2
    have h5 := hWF.2.2.2.2.1 locE.archetype hElt
      ((w.archetypes.getD locE.archetype default).rows.length - 1) (by omega)
    rw [h2, hmf] at h5
    obtain ⟨s, hs, hg, hl⟩ := Entities.get_unfold hF
    rw [List.getD_eq_getElem?_getD, hs, Option.getD_some, hl] at h5
    have h6 := h5.2
    injection h6 with h6
    constructor
    · rw [h6]
    · rw [h6]
      dsimp only
      omega
  obtain ⟨locF', hget, harch, hrow, htypes, hcells⟩ :=
    removeFinish_sibling ((w.getOrCreateArchetype k).2) e f locE locF
      ((w.getOrCreateArchetype k).1) hids
      (by rw [entities_getOrCreate]; exact hF) hTne
      (lt_of_lt_of_le hFlt (getOrCreate_len_le w k))
      (lt_of_lt_of_le hElt (getOrCreate_len_le w k))
      (by rw [hsrcE]; exact hEr)
      (by rw [hsrcF]; exact hFr)
      (by rw [hsrcF]; exact hFeid)
      hne1 hswap
  rw [hsrcE] at hrow
  rw [hsrcF] at htypes hcells
  exact ⟨locF', hget, harch, hrow, htypes, hcells⟩

/-- Frame property of a successful `World::insert` on `e` for any other live
entity `f`. -/
theorem insert_sibling (w : World) (e f : Entity) (locE locF : Location) (b : Bundle)
    (w' : World) (hWF : w.WF) (hne : e ≠ f)
    (hE : w.entities.get e = some locE)
    (hF : w.entities.get f = some locF)
    (h : w.insert e b = some w') :
    ∃ locF', w'.entities.get f = some locF' ∧
      locF'.archetype = locF.archetype ∧
      (locF'.index = locF.index ∨
        (locF.archetype = locE.archetype ∧
         locF.index + 1 = (w.archetypes.getD locE.archetype default).rows.length ∧
         locF'.index = locE.index)) ∧
      (w'.archetypes.getD locF'.archetype default).types =
        (w.archetypes.getD locF.archetype default).types ∧
      (w'.archetypes.getD locF'.archetype default).rowAt locF'.index =
        (w.archetypes.getD locF.archetype default).rowAt locF.index := by
  have hids := live_ids_ne hne hE hF
  obtain ⟨hElt, hEr, hEeid⟩ := WF_live_loc hWF hE
  obtain ⟨hFlt, hFr, hFeid⟩ := WF_live_loc hWF hF
  have hne1 : locF.archetype = locE.archetype → locF.index ≠ locE.index := by
    intro hFE heq
    apply hids
    rw [← hEeid, ← hFeid, hFE, heq]
  unfold World.insert at h
  rw [hE] at h
  dsimp only at h
  split at h
  next hcond =>
    injection h with h
    subst h
    rw [insertFast_hit w _ locE hElt hcond]
    have hfa := insertFast_sibling w locE locF b hFlt hne1
    exact ⟨locF, hF, rfl, Or.inl rfl, hfa.1, hfa.2⟩
  next hcond =>
    injection h with h
    subst h
    exact insertFinish_sibling_w w _ e f locE locF b hWF hids hE hF hcond

/-- Frame property of a non-panicking `World::remove` on `e` for any other
live entity `f` (covering both the error and the success outcome). -/
theorem remove_sibling (w : World) (e f : Entity) (locE locF : Location) (R : List TypeId)
    (res : Except ComponentError (List (Option Val))) (w' : World)
    (hWF : w.WF) (hne : e ≠ f)
    (hE : w.entities.get e = some locE)
    (hF : w.entities.get f = some locF)
    (h : w.remove e R = some (res, w')) :
    ∃ locF', w'.entities.get f = some locF' ∧
      locF'.archetype = locF.archetype ∧
      (locF'.index = locF.index ∨
        (locF.archetype = locE.archetype ∧
         locF.index + 1 = (w.archetypes.getD locE.archetype default).rows.length ∧
         locF'.index = locE.index)) ∧
      (w'.archetypes.getD locF'.archetype default).types =
        (w.archetypes.getD locF.archetype default).types ∧
      (w'.archetypes.getD locF'.archetype default).rowAt locF'.index =
        (w.archetypes.getD locF.archetype default).rowAt locF.index := by
  have hids := live_ids_ne hne hE hF
  obtain ⟨hElt, hEr, hEeid⟩ := WF_live_loc hWF hE
  obtain ⟨hFlt, hFr, hFeid⟩ := WF_live_loc hWF hF
  unfold World.remove at h
  rw [hE] at h
  dsimp only at h
  split at h
  next t heq =>
    injection h with h
    injection h with h1 h2
    subst h2
    refine ⟨locF, ?_, rfl, Or.inl rfl, ?_, ?_⟩
    · rw [entities_getOrCreate]
      exact hF
    · rw [getOrCreate_archetypes_getD_lt w _ hFlt]
    · rw [getOrCreate_archetypes_getD_lt w _ hFlt]
  next vals heq =>
    split at h
    next hT => simp at h
    next hT =>
      injection h with h
      injection h with h1 h2
      subst h2
      exact removeFinish_sibling_w w _ e f locE locF hWF hids hE hF
        (fun hh => hT hh.symm)

/- ### Claim C1 -/

/-- A world with a single entity holding one component, for the `remove::<()>`
counterexample. -/
def c1W : World := (World.new.spawn [(5, 9)]).2

/-- The handle of `c1W`'s entity. -/
def c1E : Entity := (World.new.spawn [(5, 9)]).1

/-- `remove` with the empty bundle panics: the target archetype equals the
source, so the `index2` aliasing assertion (world.rs:632) fails, although
every type of the empty set is (vacuously) present and the claim as stated
promises a successful return of the (empty) removed values. -/
theorem remove_empty_bundle_panics : World.remove c1W c1E [] = none := by decide

/-- **C1 (amended: nonempty `R`).** For a live entity `E` and a *nonempty*
bundle type set `R`: if some type in `R` is absent from `E`'s component set,
`remove` returns `MissingComponent` and `E` is untouched — the directory is
unchanged (so `E`'s archetype and row are unchanged) and every `get` on `E`
answers as before; if every type in `R` is present, `remove` returns exactly
the removed components' values, and they are moved out: afterwards `get`
fails with `MissingComponent` for each type in `R`. -/
theorem remove_missing_or_moves_out (w : World) (e : Entity) (loc : Location)
    (R : List TypeId)
    (hWF : w.WF)
    (hloc : w.entities.get e = some loc)
    (hR : R ≠ []) :
    ((∃ t ∈ R, t ∉ (w.archetypes.getD loc.archetype default).types) →
      ∃ t w1, t ∈ R ∧
        w.remove e R = some (.error (.missingComponent t), w1) ∧
        w1.entities = w.entities ∧
        (∀ ty, w1.get e ty = w.get e ty)) ∧
    ((∀ t ∈ R, t ∈ (w.archetypes.getD loc.archetype default).types) →
      ∃ w', w.remove e R =
          some (.ok (R.map fun ty =>
            ((w.archetypes.getD loc.archetype default).getDynamic ty loc.index).getD
              none), w') ∧
        (∀ ty ∈ R, w'.get e ty = .error (.missingComponent ty))) := by
  obtain ⟨hlt, hrow, heid⟩ := WF_live_loc hWF hloc
  have hidxs := hWF.2.2.1
  have hsrc : ((w.getOrCreateArchetype
      ((w.archetypes.getD loc.archetype default).types.filter
        (fun ty => ¬ R.contains ty))).2).archetypes.getD loc.archetype default =
      w.archetypes.getD loc.archetype default :=
    getOrCreate_archetypes_getD_lt w _ hlt
  constructor
  · rintro ⟨t0, ht0R, ht0A⟩
    obtain ⟨t, htR, htA, hbg⟩ := bundleGet_error_of_missing R
      (((w.getOrCreateArchetype
        ((w.archetypes.getD loc.archetype default).types.filter
          (fun ty => ¬ R.contains ty))).2).archetypes.getD loc.archetype default)
      loc.index ⟨t0, ht0R, by rw [hsrc]; exact ht0A⟩
    refine ⟨t, (w.getOrCreateArchetype
      ((w.archetypes.getD loc.archetype default).types.filter
        (fun ty => ¬ R.contains ty))).2, htR, ?_, entities_getOrCreate w _, ?_⟩
    · unfold World.remove
      rw [hloc]
      dsimp only
      rw [hbg]
    · intro ty
      unfold World.get
      rw [entities_getOrCreate, hloc]
      dsimp only
      by_cases h0 : loc.archetype = 0
      · simp only [if_pos h0]
      · simp only [if_neg h0]
        rw [hsrc]
  · intro hall
    have hallsrc : ∀ t ∈ R, t ∈ (((w.getOrCreateArchetype
        ((w.archetypes.getD loc.archetype default).types.filter
          (fun ty => ¬ R.contains ty))).2).archetypes.getD loc.archetype default).types :=
      fun t ht => by rw [hsrc]; exact hall t ht
    have hbg := bundleGet_ok_of_present R _ loc.index hallsrc
    have htgt_types := getOrCreate_types w
      ((w.archetypes.getD loc.archetype default).types.filter
        (fun ty => ¬ R.contains ty)) hidxs
    obtain ⟨t, htR⟩ : ∃ t, t ∈ R := by
      cases R with
      | nil => exact absurd rfl hR
      | cons a l => exact ⟨a, List.mem_cons_self a l⟩
    have htnotinfo : t ∉ (w.archetypes.getD loc.archetype default).types.filter
        (fun ty => ¬ R.contains ty) := by
      intro hmem
      have := (List.mem_filter.mp hmem).2
      simp only [decide_eq_true_eq] at this
      exact this (List.elem_eq_true_of_mem htR)
    have hne : loc.archetype ≠ (w.getOrCreateArchetype
        ((w.archetypes.getD loc.archetype default).types.filter
          (fun ty => ¬ R.contains ty))).1 := by
      intro he
      have h1 := htgt_types
      rw [← he] at h1
      rw [hsrc] at h1
      rw [← h1] at htnotinfo
      exact htnotinfo (hall t htR)
    have hmv : ∀ mid, ((((w.getOrCreateArchetype
        ((w.archetypes.getD loc.archetype default).types.filter
          (fun ty => ¬ R.contains ty))).2).archetypes.getD loc.archetype
            default).removeRow loc.index).2 = some mid → mid ≠ e.id := by
      intro mid hmid he
      rw [hsrc] at hmid
      unfold Archetype.removeRow at hmid
      dsimp only at hmid
      by_cases hcond : loc.index + 1 < (w.archetypes.getD loc.archetype default).rows.length
      · rw [if_pos hcond] at hmid
        rw [List.getLast?_eq_getElem?] at hmid
        cases hlast : (w.archetypes.getD loc.archetype
            default).rows[(w.archetypes.getD loc.archetype default).rows.length - 1]? with
        | none =>
          rw [hlast] at hmid
          simp at hmid
        | some lr =>
          rw [hlast] at hmid
          simp only [Option.map_some', Option.some.injEq] at hmid
          have hrs := hWF.2.2.2.2.1 loc.archetype hlt
            ((w.archetypes.getD loc.archetype default).rows.length - 1) (by omega)
          have hmidrow : ((w.archetypes.getD loc.archetype default).rows.getD
              ((w.archetypes.getD loc.archetype default).rows.length - 1) default).eid
                = mid := by
            rw [List.getD_eq_getElem?_getD, hlast, Option.getD_some, hmid]
          rw [hmidrow, he] at hrs
          obtain ⟨s, hs, hg, hl⟩ := Entities.get_unfold hloc
          rw [List.getD_eq_getElem?_getD, hs, Option.getD_some, hl] at hrs
          have : loc.index = (w.archetypes.getD loc.archetype default).rows.length - 1 := by
            have hr2 := hrs.2
            injection hr2 with hr2
            rw [hr2]
          omega
      · rw [if_neg hcond] at hmid
        simp at hmid
    refine ⟨((w.getOrCreateArchetype
        ((w.archetypes.getD loc.archetype default).types.filter
          (fun ty => ¬ R.contains ty))).2).removeFinish e loc
        ((w.getOrCreateArchetype
          ((w.archetypes.getD loc.archetype default).types.filter
            (fun ty => ¬ R.contains ty))).1), ?_, ?_⟩
    · unfold World.remove
      rw [hloc]
      dsimp only
      rw [hbg]
      dsimp only
      rw [if_neg hne]
      have hvals : (R.map fun ty => ((((w.getOrCreateArchetype
          ((w.archetypes.getD loc.archetype default).types.filter
            (fun ty => ¬ R.contains ty))).2).archetypes.getD loc.archetype
              default).getDynamic ty loc.index).getD none) =
          (R.map fun ty => ((w.archetypes.getD loc.archetype default).getDynamic ty
            loc.index).getD none) := by
        rw [hsrc]
      rw [hvals]
    · intro ty htyR
      unfold World.get
      have hget := removeFinish_get_e
        ((w.getOrCreateArchetype
          ((w.archetypes.getD loc.archetype default).types.filter
            (fun ty => ¬ R.contains ty))).2) e loc
        ((w.getOrCreateArchetype
          ((w.archetypes.getD loc.archetype default).types.filter
            (fun ty => ¬ R.contains ty))).1)
        (by rw [entities_getOrCreate]; exact hloc) hmv
      rw [hget]
      dsimp only
      by_cases h0 : (w.getOrCreateArchetype
          ((w.archetypes.getD loc.archetype default).types.filter
            (fun ty => ¬ R.contains ty))).1 = 0
      · rw [if_pos h0]
      · rw [if_neg h0]
        have htypes2 := removeFinish_target_types
          ((w.getOrCreateArchetype
            ((w.archetypes.getD loc.archetype default).types.filter
              (fun ty => ¬ R.contains ty))).2) e loc
          ((w.getOrCreateArchetype
            ((w.archetypes.getD loc.archetype default).types.filter
              (fun ty => ¬ R.contains ty))).1) hne
          (getOrCreate_fst_lt w _ hidxs)
        have hnotin : ty ∉ (((w.getOrCreateArchetype
            ((w.archetypes.getD loc.archetype default).types.filter
              (fun ty => ¬ R.contains ty))).2.removeFinish e loc
                ((w.getOrCreateArchetype
                  ((w.archetypes.getD loc.archetype default).types.filter
                    (fun ty => ¬ R.contains ty))).1)).archetypes.getD
            ((w.getOrCreateArchetype
              ((w.archetypes.getD loc.archetype default).types.filter
                (fun ty => ¬ R.contains ty))).1) default).types := by
          rw [htypes2, htgt_types]
          intro hmem
          have := (List.mem_filter.mp hmem).2
          simp only [decide_eq_true_eq] at this
          exact this (List.elem_eq_true_of_mem htyR)
        rw [Archetype.getDynamic_eq_none_of_notmem _ hnotin]

theorem remove_missing_or_moves_out_witness :
    ∃ w', exW.remove exE [0, 1] =
        some (.ok ([0, 1].map fun ty =>
          ((exW.archetypes.getD 1 default).getDynamic ty 0).getD none), w') ∧
      (∀ ty ∈ ([0, 1] : List TypeId), w'.get exE ty = .error (.missingComponent ty)) :=
  (remove_missing_or_moves_out exW exE ⟨1, 0⟩ [0, 1]
    (by decide) (by decide) (by decide)).2 (by decide)

theorem insert_overwrite_same_archetype_witness :
    (exW.WF ∧ exW.entities.get exE = some ⟨1, 0⟩ ∧
      (0 : TypeId) ∈ (exW.archetypes.getD 1 default).types) ∧
    (exW.insert exE [(0, 42)] = some (exW.insertFast ⟨1, 0⟩ [(0, 42)]) ∧
      (exW.insertFast ⟨1, 0⟩ [(0, 42)]).entities.get exE = some ⟨1, 0⟩ ∧
      (exW.insertFast ⟨1, 0⟩ [(0, 42)]).get exE 0 = .ok (some 42) ∧
      ((exW.insertFast ⟨1, 0⟩ [(0, 42)]).archetypes.getD 1 default).mutatedBit 0 0 =
        some true ∧
      ((exW.insertFast ⟨1, 0⟩ [(0, 42)]).archetypes.getD 1 default).addedBit 0 0 =
        (exW.archetypes.getD 1 default).addedBit 0 0 ∧
      ((exW.insertFast ⟨1, 0⟩ [(0, 42)]).archetypes.getD 1 default).types =
        (exW.archetypes.getD 1 default).types) :=
  ⟨⟨by decide, by decide, by decide⟩,
   (insert_overwrite_same_archetype exW exE ⟨1, 0⟩ 0 42
     (by decide) (by decide) (by decide)).1⟩

theorem spawn_order_independent_witness :
    World.new.entities.WF ∧
    ∃ a i1 i2,
      ((World.new.spawn [(1, 10), (2, 20)]).2.spawn [(2, 21), (1, 11)]).2.entities.get
        (World.new.spawn [(1, 10), (2, 20)]).1 = some ⟨a, i1⟩ ∧
      ((World.new.spawn [(1, 10), (2, 20)]).2.spawn [(2, 21), (1, 11)]).2.entities.get
        ((World.new.spawn [(1, 10), (2, 20)]).2.spawn [(2, 21), (1, 11)]).1 = some ⟨a, i2⟩ :=
  ⟨by decide,
   spawn_order_independent World.new [(1, 10), (2, 20)] [(2, 21), (1, 11)]
     (by decide) (by decide)⟩

/- ### Claim C4 -/

/-- The observable component state of one entity: its archetype's type
vector paired with its row's cells (`none` for a dead handle). -/
def World.entityView (w : World) (f : Entity) : Option (List (TypeId × Option Val)) :=
  (w.entities.get f).map fun l =>
    (w.archetypes.getD l.archetype default).types.zip
      ((w.archetypes.getD l.archetype default).rowAt l.index).cells

/-- **C4.** Migration preserves siblings: for live entities `E ≠ F`, a
successful `insert(E, bundle)` and a non-panicking `remove::<R>(E)` leave
every component value of `F` unchanged (its type-to-value view is equal
before and after); `F` stays in its archetype, and its row index changes
only when `F` held the last row of `E`'s old archetype and was swapped into
`E`'s vacated slot, the directory being updated to that row. -/
theorem migration_preserves_siblings (w : World) (e f : Entity) (locE locF : Location)
    (hWF : w.WF) (hne : e ≠ f)
    (hE : w.entities.get e = some locE)
    (hF : w.entities.get f = some locF) :
    (∀ b w', w.insert e b = some w' →
      w'.entityView f = w.entityView f ∧
      ∃ locF', w'.entities.get f = some locF' ∧
        locF'.archetype = locF.archetype ∧
        (locF'.index = locF.index ∨
          (locF.archetype = locE.archetype ∧
           locF.index + 1 = (w.archetypes.getD locE.archetype default).rows.length ∧
           locF'.index = locE.index))) ∧
    (∀ R res w', w.remove e R = some (res, w') →
      w'.entityView f = w.entityView f ∧
      ∃ locF', w'.entities.get f = some locF' ∧
        locF'.archetype = locF.archetype ∧
        (locF'.index = locF.index ∨
          (locF.archetype = locE.archetype ∧
           locF.index + 1 = (w.archetypes.getD locE.archetype default).rows.length ∧
           locF'.index = locE.index))) := by
  constructor
  · intro b w' h
    obtain ⟨locF', hget, harch, hrow, htypes, hcells⟩ :=
      insert_sibling w e f locE locF b w' hWF hne hE hF h
    refine ⟨?_, locF', hget, harch, hrow⟩
    unfold World.entityView
    rw [hget, hF]
    simp only [Option.map_some']
    rw [htypes, hcells]
  · intro R res w' h
    obtain ⟨locF', hget, harch, hrow, htypes, hcells⟩ :=
      remove_sibling w e f locE locF R res w' hWF hne hE hF h
    refine ⟨?_, locF', hget, harch, hrow⟩
    unfold World.entityView
    rw [hget, hF]
    simp only [Option.map_some']
    rw [htypes, hcells]

/-- A world with two entities `c4E`, `c4F` sharing one archetype. -/
def c4W : World := ((World.new.spawn [(0, 1)]).2.spawn [(0, 2)]).2

/-- The first spawned entity. -/
def c4E : Entity := (World.new.spawn [(0, 1)]).1

/-- The second spawned entity, occupying the last row of the archetype. -/
def c4F : Entity := ((World.new.spawn [(0, 1)]).2.spawn [(0, 2)]).1

/-- The outcome of removing `c4E`'s only component, which swap-removes
`c4E`'s row and moves `c4F` into it. -/
def c4Res : Except ComponentError (List (Option Val)) × World :=
  (c4W.remove c4E [0]).getD default

theorem migration_preserves_siblings_witness :
    c4Res.2.entityView c4F = c4W.entityView c4F ∧
    ∃ locF', c4Res.2.entities.get c4F = some locF' ∧
      locF'.archetype = 1 ∧
      (locF'.index = 1 ∨
        ((1 : Nat) = 1 ∧ 1 + 1 = (c4W.archetypes.getD 1 default).rows.length ∧
         locF'.index = 0)) :=
  (migration_preserves_siblings c4W c4E c4F ⟨1, 0⟩ ⟨1, 1⟩
    (by decide) (by decide) (by decide) (by decide)).2
    [0] c4Res.1 c4Res.2 (by decide)

end Hecs
